import Mathlib

/-!
Shallow embedding of the NetSuite BI core (src/src/App.jsx): the schema-tolerant
ingestion helpers (pick, findCol, findHeaderRow, ensureExt), the four dataset
normalizers (cost, sales, customer, supplier), the derived-metrics engine
(computed), and the CSV serializer (downloadCSV).

Modelling conventions:
- JavaScript numbers are modelled as exact rationals (ℚ).  `Infinity` values
  (daysOfInventory / daysUntilStockout) are modelled as `Option ℚ` with `none`
  standing for +Infinity; comparison helpers `jgtOpt` / `jleOpt` mirror IEEE
  comparisons against Infinity.  `NaN` does not arise on the modelled paths:
  `Number(v)` of a non-numeric string (which is NaN in JS) is modelled as 0 —
  every downstream use in the source guards such values with `|| 0` or with a
  comparison that NaN fails, which 0 fails identically.
- JavaScript objects used as records/maps are modelled as association lists in
  insertion order; `objInsert`/`fromEntries` reproduce Object.fromEntries
  (duplicate keys: value of the last occurrence at the position of the first).
- String helpers are re-implemented over `List Char` so that every definition
  kernel-evaluates: `lowerStr` is ASCII toLowerCase, `trimStr` trims ASCII
  whitespace, `containsSub` is String.prototype.includes, `startsWithStr` /
  `endsWithStr` are startsWith/endsWith (the data in scope is ASCII).
- `Math.round x` is `⌊x + 1/2⌋` (JS rounds half toward +∞), `jsRound` below.
  `Math.round (Math.sqrt x)` for a rational x ≥ 0 is computed exactly by
  `roundSqrt`, proved equal to `⌊Real.sqrt x + 1/2⌋` in `roundSqrt_eq`.
-/

namespace NetSuiteBI

/-! ### String utilities (ASCII) -/

/-- ASCII lower-casing of one character, as String.prototype.toLowerCase acts
on the ASCII range (all data in this code base is ASCII). -/
def lowChar (c : Char) : Char :=
  if 'A' ≤ c ∧ c ≤ 'Z' then Char.ofNat (c.toNat + 32) else c

/-- JS String.prototype.toLowerCase (ASCII fragment). -/
def lowerStr (s : String) : String :=
  String.mk (s.data.map lowChar)

/-- ASCII whitespace test used by String.prototype.trim. -/
def isWs (c : Char) : Bool :=
  c = ' ' ∨ c = '\t' ∨ c = '\n' ∨ c = '\r'

/-- JS String.prototype.trim (ASCII whitespace). -/
def trimStr (s : String) : String :=
  String.mk (((s.data.dropWhile isWs).reverse.dropWhile isWs).reverse)

/-- Lower-case and trim, the key normalization `String(k).toLowerCase().trim()`
used by `pick`. -/
def lowTrim (s : String) : String := trimStr (lowerStr s)

/-- Sublist-at-any-position test on character lists (helper for
String.prototype.includes). -/
def subAt (p : List Char) : List Char → Bool
  | [] => p.isEmpty
  | c :: rest => p.isPrefixOf (c :: rest) || subAt p rest

/-- JS `s.includes(pat)`. -/
def containsSub (s pat : String) : Bool :=
  subAt pat.data s.data

/-- JS `s.startsWith(p)`. -/
def startsWithStr (s p : String) : Bool :=
  p.data.isPrefixOf s.data

/-- JS `s.endsWith(p)`. -/
def endsWithStr (s p : String) : Bool :=
  p.data.isSuffixOf s.data

/-- JS `arr.join(sep)`. -/
def joinWith (sep : String) : List String → String
  | [] => ""
  | [x] => x
  | x :: y :: xs => x ++ sep ++ joinWith sep (y :: xs)

/-- Characters of the first segment of `s.split(sep)` — everything before the
first occurrence of the separator (used for `fullItem.split(" : ")[0]`). -/
def takeUntilSep (sep : List Char) : List Char → List Char
  | [] => []
  | c :: rest => if sep.isPrefixOf (c :: rest) then [] else c :: takeUntilSep sep rest

/-- JS `s.split(sep)[0]` for a non-empty separator. -/
def splitFirst (s sep : String) : String :=
  String.mk (takeUntilSep sep.data s.data)

/-! ### JS scalar values -/

/-- Scalar cell/field value: after Papa's dynamicTyping / XLSX raw decode a
value is either a string or a number. -/
inductive JVal where
  | str : String → JVal
  | num : ℚ → JVal
deriving DecidableEq, Repr

/-- JS truthiness of a scalar (empty string and 0 are falsy). -/
def JVal.truthy : JVal → Bool
  | .str s => s ≠ ""
  | .num q => q ≠ 0

/-- JS `Number(v)` with NaN collapsed to 0.  A non-numeric non-empty string
gives NaN in JS; here it is modelled as 0, which is sound only for the uses
that guard the result with `|| 0` or a strict comparison that NaN and 0 fail
alike.  The one unguarded use — the supplier delimited path's line-item
quantity, `Number(pick(...) || 0)` at line 259 — is modelled separately by
`jNumUnguarded`, which keeps NaN. -/
def JVal.toNum : JVal → ℚ
  | .str _ => 0
  | .num q => q

/-- Rendering of a number as JS produces it for integral values (non-integral
rationals are printed as fractions; the claims only evaluate integral data). -/
def qToString (q : ℚ) : String :=
  if q.den = 1 then toString q.num else toString q

/-- JS `String(v)`. -/
def JVal.toStr : JVal → String
  | .str s => s
  | .num q => qToString q

/-- JS `String(x || "")` applied to a possibly-undefined value. -/
def jStr (o : Option JVal) : String :=
  match o with
  | some v => if v.truthy then v.toStr else ""
  | none => ""

/-- JS `Number(x) || 0` applied to a possibly-undefined value
(`Number(undefined)` is NaN, hence 0 after `|| 0`). -/
def jNum (o : Option JVal) : ℚ :=
  match o with
  | some v => v.toNum
  | none => 0

/-! ### JS objects as association lists -/

/-- One property-assignment step of building a JS object: an existing key is
overwritten in place, a new key is appended. -/
def objInsert (o : List (String × JVal)) (k : String) (v : JVal) :
    List (String × JVal) :=
  if o.any (fun kv => kv.1 = k) then
    o.map (fun kv => if kv.1 = k then (k, v) else kv)
  else o ++ [(k, v)]

/-- JS `Object.fromEntries`. -/
def fromEntries (l : List (String × JVal)) : List (String × JVal) :=
  l.foldl (fun o kv => objInsert o kv.1 kv.2) []

/-- Property lookup `o[k]` on an object built by `fromEntries` (keys are
unique, so the first match is the only one). -/
def jlookup (o : List (String × JVal)) (k : String) : Option JVal :=
  (o.find? (fun kv => kv.1 = k)).map (fun kv => kv.2)

/-- Source `lowerKeys` (App.jsx line 15):
`Object.fromEntries(Object.entries(obj).map(([k,v]) => [k.toLowerCase().trim(), v]))`. -/
def lowerKeys (row : List (String × JVal)) : List (String × JVal) :=
  fromEntries (row.map (fun kv => (lowTrim kv.1, kv.2)))

/-- Source `pick` (App.jsx lines 16–27): exact case-insensitive alias match
first, then the first row key containing any alias as a substring. -/
def pick (row : List (String × JVal)) (keys : List String) : Option JVal :=
  let l := lowerKeys row
  match keys.findSome? (fun k => jlookup l (lowTrim k)) with
  | some v => some v
  | none =>
    (l.find? (fun kv => keys.any (fun c => containsSub kv.1 (lowTrim c)))).map
      (fun kv => kv.2)

/-- Source `findCol` (App.jsx lines 297–308): exact lower-cased match by
candidate priority, then first header containing any candidate; -1 if absent. -/
def findCol (headerArr : List String) (candidates : List String) : Int :=
  let lower := headerArr.map lowerStr
  match candidates.findSome? (fun c => lower.findIdx? (fun h => h = lowerStr c)) with
  | some i => Int.ofNat i
  | none =>
    match (List.range lower.length).find?
        (fun i => candidates.any (fun c => containsSub (lower.getD i "") (lowerStr c))) with
    | some i => Int.ofNat i
    | none => -1

/-- Source `findHeaderRow` (App.jsx lines 51–59), taking the already-decoded
grid: scan the first min(rows.length, 30) rows, return the first whose
lower-cased cells contain at least ceil(0.5 * expected.length) expected tokens
as exact cell values, else 0.  `Math.ceil (n * 0.5) = (n + 1) / 2` on ℕ. -/
def findHeaderRow (rows : List (List JVal)) (expected : List String) : Nat :=
  match (List.range (min rows.length 30)).find?
      (fun i =>
        let r := (rows.getD i []).map (fun x => lowerStr x.toStr)
        (expected.filter (fun h => r.contains (lowerStr h))).length ≥
          (expected.length + 1) / 2) with
  | some i => i
  | none => 0

/-- Source `ensureExt` (App.jsx lines 29–32) as a Bool test:
`allowed.some(e => file.name.toLowerCase().endsWith(e))`. -/
def ensureExt (name : String) (allowed : List String) : Bool :=
  allowed.any (fun e => endsWithStr (lowerStr name) e)

/-! ### Rounding and square roots -/

/-- JS `Math.round` (rounds half toward +∞): `⌊q + 1/2⌋`. -/
def jsRound (q : ℚ) : ℤ := ⌊q + 1/2⌋

/-- Linear search for the integer square root, written with explicit fuel so
that it kernel-evaluates (Nat.sqrt does not reduce under `decide`). -/
def sqrtFrom (n : ℕ) : ℕ → ℕ → ℕ
  | t, 0 => t
  | t, fuel + 1 => if (t + 1) * (t + 1) ≤ n then sqrtFrom n (t + 1) fuel else t

/-- Integer square root `⌊Real.sqrt n⌋₊`. -/
def isqrt (n : ℕ) : ℕ := sqrtFrom n 0 n

/-- Exact `⌊Real.sqrt x⌋₊` for a rational `x ≥ 0`: with `x = p / d`, the floor
of the square root is `⌊√(p d)⌋ / d`. -/
def ratSqrtFloor (x : ℚ) : ℕ :=
  isqrt (x.num.toNat * x.den) / x.den

/-- JS `Math.round (Math.sqrt x)` for rational `x ≥ 0`
(`⌊sqrt x + 1/2⌋ = (⌊sqrt (4 x)⌋ + 1) / 2`). -/
def roundSqrt (x : ℚ) : ℕ :=
  (ratSqrtFloor (4 * x) + 1) / 2

/-! ### Cost normalizer (handleCost, App.jsx lines 138–164) -/

/-- One row-record as parsed from a delimited-text file (column label ↦ value). -/
abbrev Row := List (String × JVal)

structure CostItem where
  fullItem : String
  itemCode : String
  itemType : String
  unitPrice : ℚ
  unitCost : ℚ
  Quantity : ℚ
  profitPerUnit : ℚ
  profitMargin : ℚ
  totalProfit : ℚ
  totalRevenue : ℚ
  totalCost : ℚ
deriving DecidableEq, Repr

/-- Body of the map in handleCost (lines 144–160). -/
def costRowToItem (row : Row) : CostItem :=
  let fullItem := jStr (pick row ["Item"])
  let unitPrice := jNum (pick row ["Average Item Rate"])
  let unitCost := jNum (pick row ["Average of Est. Unit Cost"])
  let qty := jNum (pick row ["Quantity", "Qty"])
  let profitPerUnit := if 0 < unitPrice then unitPrice - unitCost else 0
  let profitMargin := if 0 < unitPrice then ((unitPrice - unitCost) / unitPrice) * 100 else 0
  { fullItem
    itemCode := if fullItem ≠ "" then splitFirst fullItem " : " else ""
    itemType := if containsSub (lowerStr fullItem) "recert" then "ReCert" else "New"
    unitPrice, unitCost, Quantity := qty
    profitPerUnit, profitMargin
    totalProfit := profitPerUnit * qty
    totalRevenue := unitPrice * qty
    totalCost := unitCost * qty }

/-- Row processing of handleCost (lines 142–161): keep only rows where both
cost columns resolve (`pick(...) != null`), then map to items. -/
def handleCostRows (rows : List Row) : List CostItem :=
  (rows.filter (fun row =>
      (pick row ["Average Item Rate"]).isSome ∧
      (pick row ["Average of Est. Unit Cost"]).isSome)).map costRowToItem

/-! ### Sales normalizer (handleSales, App.jsx lines 166–213) -/

structure SalesAgg where
  item : String
  description : String
  totalQtySold : ℚ
  totalRevenue : ℚ
deriving DecidableEq, Repr

/-- The byItem accumulator object, keyed by the item string. -/
abbrev SalesMapL := List (String × SalesAgg)

/-- Map lookup `salesMap[k]` (keys are unique by construction). -/
def mlookup (m : SalesMapL) (k : String) : Option SalesAgg :=
  (m.find? (fun kv => kv.1 = k)).map (fun kv => kv.2)

/-- One accumulation step of the sales loop: create the aggregate on first
sight of the key, otherwise add into the running sums (lines 176–180 and
205–209, identical in both formats). -/
def salesUpd (m : SalesMapL) (item desc : String) (qty rev : ℚ) : SalesMapL :=
  if item ≠ "" ∧ 0 < qty ∧ item ≠ "Inventory Item" then
    if (m.find? (fun kv => kv.1 = item)).isSome then
      m.map (fun kv =>
        if kv.1 = item then
          (kv.1, { kv.2 with totalQtySold := kv.2.totalQtySold + qty,
                             totalRevenue := kv.2.totalRevenue + rev })
        else kv)
    else m ++ [(item, { item, description := desc, totalQtySold := qty, totalRevenue := rev })]
  else m

/-- Delimited-text sales aggregation (lines 170–181). -/
def salesFromRows (rows : List Row) : SalesMapL :=
  rows.foldl
    (fun m row =>
      salesUpd m
        (trimStr (jStr (pick row ["Item", "Inventory Item", "Item Name"])))
        (jStr (pick row ["Description", "ItemDesc", "Name", "Memo"]))
        (jNum (pick row ["Qty", "QtySold", "Quantity", "Quantity Sold"]))
        (jNum (pick row ["TotalRevenue", "Amount", "Total", "Net Amount", "Sales Amount"])))
    []

/-- Cell access `r[i]` with an Int index (JS yields undefined out of range). -/
def jAt (r : List JVal) (i : Int) : Option JVal :=
  if 0 ≤ i then r.get? i.toNat else none

/-- JS `Number(r[i] || 0)`. -/
def jNumAt (r : List JVal) (i : Int) : ℚ := jNum (jAt r i)

/-- JS `String(r[i] || "")`. -/
def jStrAt (r : List JVal) (i : Int) : String := jStr (jAt r i)

/-- Binary-spreadsheet sales aggregation (lines 187–211), taking the decoded
grid of the first sheet: locate the header row, slice, resolve columns, fold. -/
def salesFromGrid (grid : List (List JVal)) : SalesMapL :=
  let hdr := findHeaderRow grid ["item", "qty", "quantity", "amount", "total", "description"]
  let raw := grid.drop hdr
  let header := (raw.headD []).map (fun h => trimStr (jStr (some h)))
  let iItem := findCol header ["Item", "Inventory Item", "Item Name", "Product"]
  let iDesc := findCol header ["Description", "ItemDesc", "Name", "Memo"]
  let iQty := findCol header ["Qty", "QtySold", "Quantity", "Quantity Sold"]
  let iRev := findCol header ["TotalRevenue", "Amount", "Total", "Net Amount", "Sales Amount"]
  raw.tail.foldl
    (fun m r =>
      salesUpd m (trimStr (jStrAt r iItem)) (jStrAt r iDesc) (jNumAt r iQty) (jNumAt r iRev))
    []

/-! ### Customer normalizer (handleCustomer, App.jsx lines 215–245) -/

structure CustomerTotal where
  customer : String
  totalRevenue : ℚ
deriving DecidableEq, Repr

/-- Case-insensitive test for the subtotal prefix, JS regex test of
a caret-anchored "total - " pattern. -/
def isTotalRow (s : String) : Bool :=
  startsWithStr (lowerStr s) "total - "

/-- JS replace of the case-insensitive anchored "total - " prefix by "". -/
def stripTotal (s : String) : String :=
  if isTotalRow s then String.mk (s.data.drop 8) else s

/-- Case-insensitive test for "ic-", "intercompany" or "inter-company". -/
def isIntercompanyCustomer (s : String) : Bool :=
  containsSub (lowerStr s) "ic-" || containsSub (lowerStr s) "intercompany" ||
    containsSub (lowerStr s) "inter-company"

/-- Stable insertion of one element into a sorted list. -/
def insertSorted {α : Type} (le : α → α → Bool) (a : α) : List α → List α
  | [] => [a]
  | b :: l => if le a b then a :: b :: l else b :: insertSorted le a l

/-- Stable sort, the observable behavior of JS Array.prototype.sort with a
comparator inducing the total preorder le (earlier elements stay first when
the comparator ties). -/
def stableSort {α : Type} (le : α → α → Bool) : List α → List α
  | [] => []
  | a :: l => insertSorted le a (stableSort le l)

theorem mem_insertSorted {α : Type} (le : α → α → Bool) (a x : α) :
    ∀ l : List α, x ∈ insertSorted le a l ↔ x = a ∨ x ∈ l := by
  intro l
  induction l with
  | nil => simp [insertSorted]
  | cons b l ih =>
    rw [insertSorted]
    by_cases h : le a b
    · rw [if_pos h]
      simp
    · rw [if_neg h]
      simp only [List.mem_cons, ih]
      tauto

theorem mem_stableSort {α : Type} (le : α → α → Bool) (x : α) :
    ∀ l : List α, x ∈ stableSort le l ↔ x ∈ l := by
  intro l
  induction l with
  | nil => simp [stableSort]
  | cons a l ih =>
    rw [stableSort, mem_insertSorted]
    simp only [List.mem_cons, ih]

/-- Descending sort by an embedded rational key (JS comparator
(a, b) => key b - key a). -/
def sortByDesc {α : Type} (key : α → ℚ) (l : List α) : List α :=
  stableSort (fun a b => key b ≤ key a) l

/-- Delimited-text customer totals (lines 219–224). -/
def customerFromRows (rows : List Row) : List CustomerTotal :=
  ((((rows.map (fun r =>
        (jStr (pick r ["Customer", "Name"]),
         jNum (pick r ["Total", "Amount", "Net Amount", "TotalRevenue"])))).filter
      (fun rc => isTotalRow rc.1 ∧ 0 < rc.2)).map
      (fun rc => ({ customer := stripTotal rc.1, totalRevenue := rc.2 } : CustomerTotal))).filter
      (fun c => ¬ isIntercompanyCustomer c.customer)
    |> sortByDesc (fun c => c.totalRevenue))

/-- Binary-spreadsheet customer totals (lines 229–244). -/
def customerFromGrid (grid : List (List JVal)) : List CustomerTotal :=
  let hdr := findHeaderRow grid ["customer", "amount", "total", "net amount"]
  let raw := grid.drop hdr
  let header := (raw.headD []).map (fun h => trimStr (jStr (some h)))
  let iCustomer := findCol header ["Customer", "Name"]
  let iAmount := findCol header ["Total", "Amount", "Net Amount", "TotalRevenue"]
  ((((raw.tail.map (fun r => (jStrAt r iCustomer, jNumAt r iAmount))).filter
      (fun rc => isTotalRow rc.1 ∧ 0 < rc.2)).map
      (fun rc => ({ customer := stripTotal rc.1, totalRevenue := rc.2 } : CustomerTotal))).filter
      (fun c => ¬ isIntercompanyCustomer c.customer)
    |> sortByDesc (fun c => c.totalRevenue))

/-! ### Supplier normalizer (handleSupplier, App.jsx lines 247–295) -/

structure SupplierTotal where
  supplier : String
  totalCost : ℚ
  totalQuantity : ℚ
deriving DecidableEq, Repr

/-- A JS number that may be NaN.  NaN arises on the supplier paths from
`Number(pick(...) || 0)` applied to a truthy non-numeric string; the
delimited path stores it unguarded into the line item's quantity (line 259),
while every other use appends `|| 0` or a comparison that NaN fails. -/
inductive JNumber where
  | num : ℚ → JNumber
  | nan : JNumber
deriving DecidableEq, Repr

/-- JS `Number(x || 0)` with NaN kept: undefined, empty-string and 0 give 0,
a number gives itself, and a truthy non-numeric string gives NaN
(numeric-looking strings are already numbers after decoding). -/
def jNumUnguarded (o : Option JVal) : JNumber :=
  match o with
  | some v => if v.truthy then (match v with | .num q => .num q | .str _ => .nan) else .num 0
  | none => .num 0

/-- JS `x || 0` on a number: NaN (falsy) becomes 0. -/
def jGuard : JNumber → ℚ
  | .num q => q
  | .nan => 0

/-- Line item of the supplier dataset.  The delimited-text path stores the
raw picked Date value and the raw `Number(pick(...) || 0)` quantity (which
may be NaN); the binary path's object literal (line 289) has no date
property, modelled as `none`, and a `qty || 0` quantity. -/
structure SupplierLineItem where
  supplier : String
  item : String
  totalCost : ℚ
  quantity : JNumber
  date : Option JVal
deriving DecidableEq, Repr

structure SupplierRes where
  suppliers : List SupplierTotal
  lineItems : List SupplierLineItem
deriving DecidableEq, Repr

/-- Case-insensitive test of an internal|intercompany pattern. -/
def isInternalSupplier (s : String) : Bool :=
  containsSub (lowerStr s) "internal" || containsSub (lowerStr s) "intercompany"

/-- Delimited-text supplier path (lines 250–262). -/
def handleSupplierCSV (rows : List Row) : SupplierRes :=
  let supplierTotals :=
    ((((rows.map (fun r =>
          (jStr (pick r ["Vendor", "Supplier", "Name"]),
           jNum (pick r ["TotalCost", "Amount", "Total", "Net Amount"]),
           jNumUnguarded (pick r ["Quantity", "Qty"])))).filter
        (fun v => isTotalRow v.1 ∧ 0 < v.2.1)).map
        (fun v => ({ supplier := stripTotal v.1, totalCost := v.2.1,
                     totalQuantity := jGuard v.2.2 } : SupplierTotal))).filter
        (fun s => 0 < s.totalCost ∧ ¬ isInternalSupplier s.supplier)
      |> sortByDesc (fun s => s.totalCost))
  let lineItems :=
    (rows.map (fun r =>
        ({ supplier := jStr (pick r ["Vendor", "Supplier", "Name"])
           item := jStr (pick r ["Item", "Item Name", "Product"])
           totalCost := jNum (pick r ["TotalCost", "Amount", "Total", "Net Amount"])
           quantity := jNumUnguarded (pick r ["Quantity", "Qty"])
           date := pick r ["Date"] } : SupplierLineItem))).filter
      (fun r => r.supplier ≠ "" ∧ ¬ isTotalRow r.supplier ∧ r.item ≠ "" ∧ 0 < r.totalCost)
  { suppliers := supplierTotals, lineItems }

/-- Per-row contribution of the binary supplier loop (lines 278–291). -/
inductive SupplierRowClass where
  | total : SupplierTotal → SupplierRowClass
  | line : SupplierLineItem → SupplierRowClass
  | skip : SupplierRowClass

/-- Classification of one data row in the binary supplier loop. -/
def supplierClassify (iVendor iItem iTotal iQty : Int) (r : List JVal) :
    SupplierRowClass :=
  let vendor := jStrAt r iVendor
  let item := jStrAt r iItem
  let total := jNumAt r iTotal
  let qty := jNumUnguarded (jAt r iQty)
  if isTotalRow vendor ∧ 0 < total then
    let name := stripTotal vendor
    if 0 < total ∧ ¬ isInternalSupplier name then
      .total { supplier := name, totalCost := total, totalQuantity := jGuard qty }
    else .skip
  else if vendor ≠ "" ∧ item ≠ "" ∧ 0 < total then
    .line { supplier := vendor, item, totalCost := total, quantity := .num (jGuard qty),
            date := none }
  else .skip

/-- The binary supplier loop: pushes append in iteration order. -/
def supplierLoop (iVendor iItem iTotal iQty : Int) :
    List (List JVal) → List SupplierTotal × List SupplierLineItem
  | [] => ([], [])
  | r :: rest =>
    let acc := supplierLoop iVendor iItem iTotal iQty rest
    match supplierClassify iVendor iItem iTotal iQty r with
    | .total t => (t :: acc.1, acc.2)
    | .line l => (acc.1, l :: acc.2)
    | .skip => acc

/-- Binary-spreadsheet supplier path (lines 266–293). -/
def handleSupplierX (grid : List (List JVal)) : SupplierRes :=
  let hdr := findHeaderRow grid ["vendor", "supplier", "item", "quantity", "amount", "total"]
  let raw := grid.drop hdr
  let header := (raw.headD []).map (fun h => trimStr (jStr (some h)))
  let iVendor := findCol header ["Vendor", "Supplier", "Name"]
  let iItem := findCol header ["Item", "Item Name", "Product"]
  let iTotal := findCol header ["TotalCost", "Amount", "Total", "Net Amount"]
  let iQty := findCol header ["Quantity", "Qty"]
  let acc := supplierLoop iVendor iItem iTotal iQty raw.tail
  { suppliers := sortByDesc (fun s => s.totalCost) acc.1, lineItems := acc.2 }

/-! ### CSV serializer (downloadCSV, App.jsx lines 316–325) -/

/-- JSON string escaping (the characters that occur in this data model;
JSON.stringify additionally escapes other control characters). -/
def escChar (c : Char) : String :=
  if c = '"' then "\\\"" else if c = '\\' then "\\\\" else if c = '\n' then "\\n"
  else String.mk [c]

/-- JS `JSON.stringify` on a scalar: strings are wrapped in double quotes,
numbers are rendered bare. -/
def jsonStringify : JVal → String
  | .str s => "\"" ++ String.join (s.data.map escChar) ++ "\""
  | .num q => qToString q

/-- Property lookup `r[h]` on a row object (no key normalization). -/
def rawLookup (r : Row) (h : String) : Option JVal :=
  (r.find? (fun kv => kv.1 = h)).map (fun kv => kv.2)

/-- Text built by downloadCSV (lines 317–319): nothing for an empty row set;
otherwise the keys of the first row joined by commas, then one line per row of
the JSON-serialized values (absent values default to the empty string). -/
def downloadCSVText (rows : List Row) : Option String :=
  match rows with
  | [] => none
  | r0 :: _ =>
    let headers := r0.map (fun kv => kv.1)
    some (joinWith "\n"
      (joinWith "," headers ::
        rows.map (fun r =>
          joinWith "," (headers.map (fun h => jsonStringify ((rawLookup r h).getD (.str "")))))))

/-! ### Upload dispatch and application state (App.jsx lines 138–295) -/

inductive IngestErr where
  | formatErr : IngestErr
  | parseErr : IngestErr
deriving DecidableEq, Repr

/-- An uploaded file: a name and undecoded contents. -/
structure JFile (α : Type) where
  name : String
  contents : α

/-- handleCost (lines 138–164): the only handler that calls ensureExt; the
parse step is an oracle for Papa.parse. -/
def handleCost {α : Type} (parse : α → Except IngestErr (List Row)) (f : JFile α) :
    Except IngestErr (List CostItem) :=
  if ensureExt f.name [".csv"] then (parse f.contents).map handleCostRows
  else .error .formatErr

/-- handleSales (lines 166–213): branches on the .csv suffix, everything else
goes to the workbook decoder. -/
def handleSales {α : Type} (parseC : α → Except IngestErr (List Row))
    (parseW : α → Except IngestErr (List (List JVal))) (f : JFile α) :
    Except IngestErr SalesMapL :=
  if endsWithStr (lowerStr f.name) ".csv" then (parseC f.contents).map salesFromRows
  else (parseW f.contents).map salesFromGrid

/-- handleCustomer (lines 215–245), same dispatch shape. -/
def handleCustomer {α : Type} (parseC : α → Except IngestErr (List Row))
    (parseW : α → Except IngestErr (List (List JVal))) (f : JFile α) :
    Except IngestErr (List CustomerTotal) :=
  if endsWithStr (lowerStr f.name) ".csv" then (parseC f.contents).map customerFromRows
  else (parseW f.contents).map customerFromGrid

/-- handleSupplier (lines 247–295), same dispatch shape. -/
def handleSupplier {α : Type} (parseC : α → Except IngestErr (List Row))
    (parseW : α → Except IngestErr (List (List JVal))) (f : JFile α) :
    Except IngestErr SupplierRes :=
  if endsWithStr (lowerStr f.name) ".csv" then (parseC f.contents).map handleSupplierCSV
  else (parseW f.contents).map handleSupplierX

/-- The four per-category datasets held in component state (lines 66–69). -/
structure AppState where
  costData : List CostItem
  salesMap : SalesMapL
  customerData : List CustomerTotal
  supplierData : SupplierRes
deriving DecidableEq, Repr

/-- State update for a cost upload: setCostData runs only after a successful
parse; a thrown error leaves the state untouched. -/
def applyCost {α : Type} (parse : α → Except IngestErr (List Row)) (f : JFile α)
    (st : AppState) : AppState × Except IngestErr Unit :=
  match handleCost parse f with
  | .ok d => ({ st with costData := d }, .ok ())
  | .error e => (st, .error e)

/-- State update for a sales upload. -/
def applySales {α : Type} (parseC : α → Except IngestErr (List Row))
    (parseW : α → Except IngestErr (List (List JVal))) (f : JFile α)
    (st : AppState) : AppState × Except IngestErr Unit :=
  match handleSales parseC parseW f with
  | .ok d => ({ st with salesMap := d }, .ok ())
  | .error e => (st, .error e)

/-! ### Derived-Metrics Engine (computed, App.jsx lines 90–135) -/

/-- A cost item extended with the derived metrics returned at line 111.
`daysOfInventory` and `daysUntilStockout` are `Option ℚ` with `none` for
Infinity.  `eoq` is exact: `roundSqrt` computes Math.round(Math.sqrt(·)). -/
structure DerivedItem extends CostItem where
  annualSales : ℚ
  dailySales : ℚ
  daysOfInventory : Option ℚ
  reorderPoint : ℚ
  daysUntilStockout : Option ℚ
  eoq : ℤ
  priceDelta : ℚ
  annualImpact : ℚ
deriving DecidableEq, Repr

/-- The cascading sales lookup (line 94):
`salesMap[code] || salesMap[code+"-New"] || salesMap[code+"-ReCert"] || salesMap[fullItem] || null`
(aggregate objects are always truthy, so the first present key wins). -/
def resolveSales (salesMap : SalesMapL) (item : CostItem) : Option SalesAgg :=
  (mlookup salesMap item.itemCode).orElse fun _ =>
    (mlookup salesMap (item.itemCode ++ "-New")).orElse fun _ =>
      (mlookup salesMap (item.itemCode ++ "-ReCert")).orElse fun _ =>
        mlookup salesMap item.fullItem

/-- Lines 93–111: the per-item derived metrics.  Divergence note: when the
EOQ branch condition holds but `orderingCost < 0`, JS computes
Math.sqrt of a negative argument (NaN) while `roundSqrt` yields 0; the claims
about eoq are therefore stated under `0 ≤ orderingCost`. -/
def computeItem (salesMap : SalesMapL) (orderingCost holdingCostRate targetMargin : ℚ)
    (item : CostItem) : DerivedItem :=
  let s := resolveSales salesMap item
  let annualSales := match s with | some a => a.totalQtySold | none => 0
  let dailySales := annualSales / 365
  let daysOfInventory := if 0 < dailySales then some (item.Quantity / dailySales) else none
  let leadTimeDays : ℚ := if item.itemType = "ReCert" then 28 else 21
  let safetyStock := dailySales * (max 7 (jsRound (leadTimeDays / 2)) : ℤ)
  let reorderPoint := dailySales * leadTimeDays + safetyStock
  let daysUntilStockout := if 0 < dailySales then some (item.Quantity / dailySales) else none
  let holdingCost := item.unitCost * holdingCostRate
  let eoq : ℤ :=
    if 0 < holdingCost ∧ 0 < annualSales then
      roundSqrt ((2 * annualSales * orderingCost) / holdingCost)
    else jsRound ((annualSales / 12) * 3)
  let targetPrice := if 0 < item.unitCost then item.unitCost / (1 - targetMargin) else 0
  let priceDelta := max 0 (targetPrice - item.unitPrice)
  let annualImpact := priceDelta * annualSales
  { toCostItem := item
    annualSales, dailySales, daysOfInventory, reorderPoint, daysUntilStockout, eoq
    priceDelta, annualImpact }

/-- IEEE-style `d > c` where `d` may be +Infinity (`none`). -/
def jgtOpt : Option ℚ → ℚ → Bool
  | none, _ => true
  | some q, c => c < q

/-- IEEE-style `d ≤ c` where `d` may be +Infinity (`none`). -/
def jleOpt : Option ℚ → ℚ → Bool
  | none, _ => false
  | some q, c => q ≤ c

/-- Slow-mover filter predicate (line 115). -/
def slowPred (slowCost slowDays : ℚ) (it : DerivedItem) : Bool :=
  slowCost < it.totalCost ∧ (jgtOpt it.daysOfInventory slowDays ∨ it.annualSales = 0) ∧
    0 < it.Quantity

/-- Dead-stock filter predicate (line 119). -/
def deadPred (deadCost : ℚ) (it : DerivedItem) : Bool :=
  it.annualSales = 0 ∧ deadCost < it.totalCost ∧ 0 < it.Quantity

/-- Critical-stockout filter predicate (line 123): `daysUntilStockout ≤ 30`,
not Infinity, `totalCost > 1000`. -/
def criticalPred (it : DerivedItem) : Bool :=
  jleOpt it.daysUntilStockout 30 ∧ it.daysUntilStockout ≠ none ∧ 1000 < it.totalCost

/-- Warning-stockout filter predicate (line 127): `30 < daysUntilStockout ≤ 60`,
`totalCost > 500`. -/
def warningPred (it : DerivedItem) : Bool :=
  jgtOpt it.daysUntilStockout 30 ∧ jleOpt it.daysUntilStockout 60 ∧ 500 < it.totalCost

/-- Price-opportunity filter predicate (line 131). -/
def pricePred (it : DerivedItem) : Bool :=
  0 < it.priceDelta ∧ 0 < it.annualSales ∧ 5000 < it.totalRevenue

/-- The JS comparator `a.daysUntilStockout - b.daysUntilStockout` as a
non-strict order: `a` sorts no later than `b` exactly when the difference
is ≤ 0.  Infinity (`none`) minus a finite value is +Infinity, so Infinity
sorts last; Infinity minus Infinity is NaN, treated by the sort as a tie
(the stockout lists never reach that case, since their filters exclude
Infinity). -/
def stockoutLe : Option ℚ → Option ℚ → Bool
  | some x, some y => x ≤ y
  | some _, none => true
  | none, some _ => false
  | none, none => true

/-- Ascending sort by a possibly-infinite key (comparator
(a, b) => a.daysUntilStockout - b.daysUntilStockout, lines 124 and 128). -/
def sortByStockout (l : List DerivedItem) : List DerivedItem :=
  stableSort (fun a b => stockoutLe a.daysUntilStockout b.daysUntilStockout) l

/-- The derived items of the engine (line 92). -/
def itemsOf (costData : List CostItem) (salesMap : SalesMapL)
    (orderingCost holdingCostRate targetMargin : ℚ) : List DerivedItem :=
  costData.map (computeItem salesMap orderingCost holdingCostRate targetMargin)

/-- Slow movers (lines 114–116). -/
def slowMoversOf (costData : List CostItem) (salesMap : SalesMapL)
    (orderingCost holdingCostRate targetMargin slowCost slowDays : ℚ) : List DerivedItem :=
  sortByDesc (fun it => it.totalCost)
    ((itemsOf costData salesMap orderingCost holdingCostRate targetMargin).filter
      (slowPred slowCost slowDays))

/-- Dead stock (lines 118–120). -/
def deadStockOf (costData : List CostItem) (salesMap : SalesMapL)
    (orderingCost holdingCostRate targetMargin deadCost : ℚ) : List DerivedItem :=
  sortByDesc (fun it => it.totalCost)
    ((itemsOf costData salesMap orderingCost holdingCostRate targetMargin).filter
      (deadPred deadCost))

/-- Critical stockouts (lines 122–124). -/
def criticalStockoutsOf (costData : List CostItem) (salesMap : SalesMapL)
    (orderingCost holdingCostRate targetMargin : ℚ) : List DerivedItem :=
  sortByStockout
    ((itemsOf costData salesMap orderingCost holdingCostRate targetMargin).filter criticalPred)

/-- Warning stockouts (lines 126–128). -/
def warningStockoutsOf (costData : List CostItem) (salesMap : SalesMapL)
    (orderingCost holdingCostRate targetMargin : ℚ) : List DerivedItem :=
  sortByStockout
    ((itemsOf costData salesMap orderingCost holdingCostRate targetMargin).filter warningPred)

/-- Price opportunities (lines 130–132). -/
def priceOppsOf (costData : List CostItem) (salesMap : SalesMapL)
    (orderingCost holdingCostRate targetMargin : ℚ) : List DerivedItem :=
  sortByDesc (fun it => it.annualImpact)
    ((itemsOf costData salesMap orderingCost holdingCostRate targetMargin).filter pricePred)

structure Computed where
  items : List DerivedItem
  slowMovers : List DerivedItem
  deadStock : List DerivedItem
  criticalStockouts : List DerivedItem
  warningStockouts : List DerivedItem
  priceOpps : List DerivedItem
deriving DecidableEq, Repr

/-- The full engine output (lines 90–135); null when no cost data is loaded. -/
def computed (costData : List CostItem) (salesMap : SalesMapL)
    (slowCost deadCost slowDays targetMargin orderingCost holdingCostRate : ℚ) :
    Option Computed :=
  if costData = [] then none
  else some
    { items := itemsOf costData salesMap orderingCost holdingCostRate targetMargin
      slowMovers :=
        slowMoversOf costData salesMap orderingCost holdingCostRate targetMargin slowCost slowDays
      deadStock :=
        deadStockOf costData salesMap orderingCost holdingCostRate targetMargin deadCost
      criticalStockouts :=
        criticalStockoutsOf costData salesMap orderingCost holdingCostRate targetMargin
      warningStockouts :=
        warningStockoutsOf costData salesMap orderingCost holdingCostRate targetMargin
      priceOpps := priceOppsOf costData salesMap orderingCost holdingCostRate targetMargin }

/-! ### Correctness of the integer square root -/

theorem sqrtFrom_spec (n : ℕ) :
    ∀ fuel t, t * t ≤ n →
      sqrtFrom n t fuel * sqrtFrom n t fuel ≤ n ∧
        (n < (sqrtFrom n t fuel + 1) * (sqrtFrom n t fuel + 1) ∨
          sqrtFrom n t fuel = t + fuel) := by
  intro fuel
  induction fuel with
  | zero => intro t h; exact ⟨h, Or.inr rfl⟩
  | succ fuel ih =>
    intro t h
    rw [sqrtFrom]
    by_cases hc : (t + 1) * (t + 1) ≤ n
    · simp only [hc, if_true]
      rcases ih (t + 1) hc with ⟨h1, h2⟩
      exact ⟨h1, h2.imp id (fun he => by omega)⟩
    · simp only [hc, if_false]
      exact ⟨h, Or.inl (by omega)⟩

theorem isqrt_le (n : ℕ) : isqrt n * isqrt n ≤ n :=
  (sqrtFrom_spec n n 0 (by simp)).1

theorem lt_succ_isqrt (n : ℕ) : n < (isqrt n + 1) * (isqrt n + 1) := by
  rcases sqrtFrom_spec n n 0 (by simp) with ⟨h1, h2 | h2⟩
  · exact h2
  · rw [isqrt] at *
    rw [h2] at h1 ⊢
    simp only [Nat.zero_add] at *
    nlinarith

theorem le_isqrt {m n : ℕ} (h : m * m ≤ n) : m ≤ isqrt n := by
  by_contra hlt
  push_neg at hlt
  have := lt_succ_isqrt n
  nlinarith

theorem le_isqrt_iff {m n : ℕ} : m ≤ isqrt n ↔ m * m ≤ n :=
  ⟨fun h => le_trans (Nat.mul_le_mul h h) (isqrt_le n), le_isqrt⟩

/-- The computable `ratSqrtFloor` agrees with the floor of the real square
root on nonnegative rationals. -/
theorem ratSqrtFloor_eq (x : ℚ) (hx : 0 ≤ x) :
    ratSqrtFloor x = ⌊Real.sqrt (x : ℝ)⌋₊ := by
  have hd : 0 < x.den := x.pos
  have hnum : (x.num.toNat : ℤ) = x.num := Int.toNat_of_nonneg (Rat.num_nonneg.2 hx)
  set p := x.num.toNat with hp
  set d := x.den with hdd
  have hcast : (x : ℝ) = (p : ℝ) / (d : ℝ) := by
    rw [Rat.cast_def]
    congr 1
    exact_mod_cast hnum.symm
  have hdR : (0 : ℝ) < (d : ℝ) := by exact_mod_cast hd
  have key : ∀ t : ℕ, t ≤ ratSqrtFloor x ↔ t ≤ ⌊Real.sqrt (x : ℝ)⌋₊ := by
    intro t
    have h1 : t ≤ ratSqrtFloor x ↔ t * d ≤ isqrt (p * d) :=
      Nat.le_div_iff_mul_le hd
    have h2 : t * d ≤ isqrt (p * d) ↔ (t * d) * (t * d) ≤ p * d := le_isqrt_iff
    have h3 : (t * d) * (t * d) ≤ p * d ↔ t * t * d ≤ p := by
      constructor
      · intro h
        have : (t * t * d) * d ≤ p * d := by nlinarith
        exact Nat.le_of_mul_le_mul_right this hd
      · intro h
        calc (t * d) * (t * d) = (t * t * d) * d := by ring
          _ ≤ p * d := Nat.mul_le_mul_right d h
    have h4 : t * t * d ≤ p ↔ ((t : ℝ)) ^ 2 ≤ (x : ℝ) := by
      rw [hcast, le_div_iff₀ hdR]
      constructor
      · intro h
        have : ((t * t * d : ℕ) : ℝ) ≤ ((p : ℕ) : ℝ) := by exact_mod_cast h
        push_cast at this
        nlinarith
      · intro h
        have : ((t * t * d : ℕ) : ℝ) ≤ ((p : ℕ) : ℝ) := by push_cast; nlinarith
        exact_mod_cast this
    have h5 : ((t : ℝ)) ^ 2 ≤ (x : ℝ) ↔ (t : ℝ) ≤ Real.sqrt (x : ℝ) :=
      (Real.le_sqrt (by positivity) (by exact_mod_cast hx)).symm
    have h6 : (t : ℝ) ≤ Real.sqrt (x : ℝ) ↔ t ≤ ⌊Real.sqrt (x : ℝ)⌋₊ :=
      (Nat.le_floor_iff (Real.sqrt_nonneg _)).symm
    rw [h1, h2, h3, h4, h5, h6]
  exact Nat.le_antisymm ((key _).1 le_rfl) ((key _).2 le_rfl)

/-- The computable `roundSqrt` is Math.round of the real square root. -/
theorem roundSqrt_eq (x : ℚ) (hx : 0 ≤ x) :
    (roundSqrt x : ℤ) = ⌊Real.sqrt (x : ℝ) + 1/2⌋ := by
  have hs : (0 : ℝ) ≤ Real.sqrt (x : ℝ) := Real.sqrt_nonneg _
  have hcast : ((4 * x : ℚ) : ℝ) = 4 * (x : ℝ) := by push_cast; ring
  have hsqrt4 : Real.sqrt (4 * (x : ℝ)) = 2 * Real.sqrt (x : ℝ) := by
    rw [show (4 : ℝ) * (x : ℝ) = 2 ^ 2 * (x : ℝ) by norm_num,
      Real.sqrt_mul (by positivity), Real.sqrt_sq (by norm_num : (0:ℝ) ≤ 2)]
  have hnat : roundSqrt x = ⌊Real.sqrt (x : ℝ) + 1/2⌋₊ := by
    rw [roundSqrt, ratSqrtFloor_eq (4 * x) (by linarith), hcast, hsqrt4]
    rw [show Real.sqrt (x : ℝ) + 1/2 = (2 * Real.sqrt (x : ℝ) + 1) / 2 by ring]
    rw [Nat.floor_div_ofNat, Nat.floor_add_one (by positivity)]
  rw [hnat, Int.natCast_floor_eq_floor (by positivity)]

/-! ### C1: cascading sales-key resolution -/

/-- The annual-sales figure of line 95: `s ? Number(s.totalQtySold) : 0`. -/
theorem annualSales_def (salesMap : SalesMapL)
    (orderingCost holdingCostRate targetMargin : ℚ) (item : CostItem) :
    (computeItem salesMap orderingCost holdingCostRate targetMargin item).annualSales =
      match resolveSales salesMap item with
      | some a => a.totalQtySold
      | none => 0 := rfl

/-- The four lookup keys in cascade order. -/
def cascadeKeys (item : CostItem) : List String :=
  [item.itemCode, item.itemCode ++ "-New", item.itemCode ++ "-ReCert", item.fullItem]

/-- The derived item keeps its cost item unchanged (line 111 spreads
`...item`). -/
theorem computeItem_toCostItem (salesMap : SalesMapL)
    (orderingCost holdingCostRate targetMargin : ℚ) (item : CostItem) :
    (computeItem salesMap orderingCost holdingCostRate targetMargin item).toCostItem =
      item := rfl

/-- Line 96: dailySales is annualSales / 365. -/
theorem dailySales_def (salesMap : SalesMapL)
    (orderingCost holdingCostRate targetMargin : ℚ) (item : CostItem) :
    (computeItem salesMap orderingCost holdingCostRate targetMargin item).dailySales =
      (computeItem salesMap orderingCost holdingCostRate targetMargin item).annualSales /
        365 := rfl

/-- Line 97: the daysOfInventory guard. -/
theorem daysOfInventory_def (salesMap : SalesMapL)
    (orderingCost holdingCostRate targetMargin : ℚ) (item : CostItem) :
    (computeItem salesMap orderingCost holdingCostRate targetMargin item).daysOfInventory =
      (if 0 < (computeItem salesMap orderingCost holdingCostRate targetMargin
            item).dailySales then
        some (item.Quantity /
          (computeItem salesMap orderingCost holdingCostRate targetMargin item).dailySales)
      else none) := rfl

/-- Line 102: the daysUntilStockout guard. -/
theorem daysUntilStockout_def (salesMap : SalesMapL)
    (orderingCost holdingCostRate targetMargin : ℚ) (item : CostItem) :
    (computeItem salesMap orderingCost holdingCostRate targetMargin item).daysUntilStockout =
      (if 0 < (computeItem salesMap orderingCost holdingCostRate targetMargin
            item).dailySales then
        some (item.Quantity /
          (computeItem salesMap orderingCost holdingCostRate targetMargin item).dailySales)
      else none) := rfl

theorem findSome?_prefix_none {α β : Type} (f : α → Option β) :
    ∀ pre (k : α) (post : List α) (b : β), (∀ a ∈ pre, f a = none) → f k = some b →
      (pre ++ k :: post).findSome? f = some b := by
  intro pre
  induction pre with
  | nil => intro k post b _ hk; simp [List.findSome?_cons, hk]
  | cons a pre ih =>
    intro k post b hpre hk
    have ha : f a = none := hpre a (by simp)
    simp only [List.cons_append, List.findSome?_cons, ha]
    exact ih k post b (fun a ha => hpre a (by simp [ha])) hk

theorem resolveSales_eq_findSome? (m : SalesMapL) (it : CostItem) :
    resolveSales m it = (cascadeKeys it).findSome? (mlookup m) := by
  unfold resolveSales cascadeKeys
  cases h1 : mlookup m it.itemCode <;>
    cases h2 : mlookup m (it.itemCode ++ "-New") <;>
      cases h3 : mlookup m (it.itemCode ++ "-ReCert") <;>
        cases h4 : mlookup m it.fullItem <;>
          simp [List.findSome?_cons, Option.orElse, h1, h2, h3, h4]

/-- C1.  For every CostItem, annual sales is resolved by trying, in order, the
bare itemCode, itemCode ++ "-New", itemCode ++ "-ReCert", and the full item
label against the SalesAggregate mapping; the first key present supplies its
totalQtySold as annualSales, and if none of the four keys is present
annualSales is 0. -/
theorem c1_cascading_sales_resolution (m : SalesMapL)
    (orderingCost holdingCostRate targetMargin : ℚ) (it : CostItem) :
    ((computeItem m orderingCost holdingCostRate targetMargin it).annualSales =
        ((((cascadeKeys it).findSome? (mlookup m)).map
          (fun a => a.totalQtySold)).getD 0)) ∧
    (∀ pre k post a, cascadeKeys it = pre ++ k :: post →
      (∀ k' ∈ pre, mlookup m k' = none) → mlookup m k = some a →
      (computeItem m orderingCost holdingCostRate targetMargin it).annualSales =
        a.totalQtySold) ∧
    ((∀ k ∈ cascadeKeys it, mlookup m k = none) →
      (computeItem m orderingCost holdingCostRate targetMargin it).annualSales = 0) := by
  have hres := resolveSales_eq_findSome? m it
  refine ⟨?_, ?_, ?_⟩
  · rw [annualSales_def, hres]
    cases (cascadeKeys it).findSome? (mlookup m) <;> simp
  · intro pre k post a hsplit hpre hk
    rw [annualSales_def, hres, hsplit, findSome?_prefix_none (mlookup m) pre k post a hpre hk]
  · intro hall
    rw [annualSales_def, hres, List.findSome?_eq_none_iff.2 hall]

/-- The cost row of the spec's end-to-end scenario. -/
def exRow : Row :=
  [("Item", JVal.str "ABC123 : Recert Widget"), ("Average Item Rate", JVal.num 100),
    ("Average of Est. Unit Cost", JVal.num 60), ("Quantity", JVal.num 10)]

/-- The CostItem that `handleCost` builds from `exRow`. -/
def exCostItem : CostItem where
  fullItem := "ABC123 : Recert Widget"
  itemCode := "ABC123"
  itemType := "ReCert"
  unitPrice := 100
  unitCost := 60
  Quantity := 10
  profitPerUnit := 40
  profitMargin := 40
  totalProfit := 400
  totalRevenue := 1000
  totalCost := 600

/-- The sales aggregate of the spec's end-to-end scenario. -/
def exAgg : SalesAgg where
  item := "ABC123-ReCert"
  description := ""
  totalQtySold := 730
  totalRevenue := 0

/-- A sales mapping holding only the "ABC123-ReCert" key. -/
def exSalesMap : SalesMapL := [("ABC123-ReCert", exAgg)]

/-- Witness for C1 at a concrete item and mapping: the bare code and the
"-New" key are absent, the "-ReCert" key is hit third. -/
theorem c1_cascading_sales_resolution_witness :
    (cascadeKeys exCostItem =
      ["ABC123", "ABC123-New"] ++ "ABC123-ReCert" :: ["ABC123 : Recert Widget"]) ∧
    (computeItem exSalesMap 50 (1/4) (3/10) exCostItem).annualSales = 730 := by
  constructor
  · decide
  · exact (c1_cascading_sales_resolution exSalesMap 50 (1/4) (3/10) exCostItem).2.1
      ["ABC123", "ABC123-New"] "ABC123-ReCert" ["ABC123 : Recert Widget"] exAgg
      (by decide) (by decide) (by decide)

/-! ### C2: the derived-metric formulas -/

/-- Membership test for `roundSqrt x = n` by rational arithmetic only
(used to evaluate concrete eoq values). -/
theorem roundSqrt_eq_iff (x : ℚ) (hx : 0 ≤ x) (n : ℕ) (hn : 0 < n) :
    roundSqrt x = n ↔ ((n : ℚ) - 1/2) ^ 2 ≤ x ∧ x < ((n : ℚ) + 1/2) ^ 2 := by
  have hxR : (0 : ℝ) ≤ (x : ℝ) := by exact_mod_cast hx
  have h1 : roundSqrt x = n ↔ (roundSqrt x : ℤ) = (n : ℤ) := by exact_mod_cast Iff.rfl
  rw [h1, roundSqrt_eq x hx, Int.floor_eq_iff]
  have hhalf : ((n : ℝ) - 1/2) ≥ 0 := by
    have : (1 : ℝ) ≤ (n : ℝ) := by exact_mod_cast hn
    linarith
  constructor
  · rintro ⟨hlo, hhi⟩
    have hle : (n : ℝ) - 1/2 ≤ Real.sqrt (x : ℝ) := by push_cast at hlo; linarith
    have hlt : Real.sqrt (x : ℝ) < (n : ℝ) + 1/2 := by push_cast at hhi; linarith
    have h2 := (Real.le_sqrt hhalf hxR).1 hle
    have h3 := (Real.sqrt_lt' (by positivity)).1 hlt
    constructor
    · rify
      push_cast at h2 ⊢
      linarith
    · rify
      push_cast at h3 ⊢
      linarith
  · rintro ⟨hlo, hhi⟩
    rify at hlo hhi
    have hle : (n : ℝ) - 1/2 ≤ Real.sqrt (x : ℝ) :=
      (Real.le_sqrt hhalf hxR).2 (by linarith)
    have hlt : Real.sqrt (x : ℝ) < (n : ℝ) + 1/2 :=
      (Real.sqrt_lt' (by positivity)).2 (by linarith)
    constructor
    · push_cast
      linarith
    · push_cast
      linarith

/-- C2.  The derived quantities follow the spec's exact formulas:
dailySales = annualSales / 365; leadTimeDays = 28 for ReCert items else 21;
safetyStock = dailySales * max(7, round(leadTimeDays / 2));
reorderPoint = dailySales * leadTimeDays + safetyStock; eoq =
round(sqrt(2 * annualSales * orderingCost / holdingCost)) when holdingCost
(= unitCost * holdingCostRate) and annualSales are both positive, else
round((annualSales / 12) * 3) — round is Math.round = ⌊ - + 1/2⌋ and the
ordering cost is nonnegative (a negative one would make the JS sqrt NaN).
In particular, the spec's worked example (annualSales 730 via the "-ReCert"
key, quantity 10) yields dailySales = 2, leadTimeDays = 28,
reorderPoint = 84, daysOfInventory = 5. -/
theorem c2_derived_metric_formulas :
    (∀ (m : SalesMapL) (oc hcr tm : ℚ) (it : CostItem), 0 ≤ oc →
      (computeItem m oc hcr tm it).dailySales =
        (computeItem m oc hcr tm it).annualSales / 365 ∧
      (computeItem m oc hcr tm it).reorderPoint =
        (computeItem m oc hcr tm it).dailySales *
            (if it.itemType = "ReCert" then (28 : ℚ) else 21) +
          (computeItem m oc hcr tm it).dailySales *
            ((max 7 (jsRound ((if it.itemType = "ReCert" then (28 : ℚ) else 21) / 2)) : ℤ) : ℚ) ∧
      (computeItem m oc hcr tm it).eoq =
        (if 0 < it.unitCost * hcr ∧ 0 < (computeItem m oc hcr tm it).annualSales then
          ⌊Real.sqrt (((2 * (computeItem m oc hcr tm it).annualSales * oc) /
              (it.unitCost * hcr) : ℚ) : ℝ) + 1/2⌋
        else ⌊((((computeItem m oc hcr tm it).annualSales / 12) * 3 : ℚ) : ℝ) + 1/2⌋)) ∧
    (computeItem exSalesMap 50 (1/4) (3/10) exCostItem).annualSales = 730 ∧
    (computeItem exSalesMap 50 (1/4) (3/10) exCostItem).dailySales = 2 ∧
    (if exCostItem.itemType = "ReCert" then (28 : ℚ) else 21) = 28 ∧
    (computeItem exSalesMap 50 (1/4) (3/10) exCostItem).reorderPoint = 84 ∧
    (computeItem exSalesMap 50 (1/4) (3/10) exCostItem).daysOfInventory = some 5 := by
  have hres : resolveSales exSalesMap exCostItem = some exAgg := by decide
  have hT : exCostItem.itemType = "ReCert" := rfl
  have hQ : exCostItem.Quantity = 10 := rfl
  refine ⟨?_, ?_, ?_, by decide, ?_, ?_⟩
  · intro m oc hcr tm it hoc
    refine ⟨rfl, rfl, ?_⟩
    show (if 0 < it.unitCost * hcr ∧
          0 < (computeItem m oc hcr tm it).annualSales then
        (roundSqrt ((2 * (computeItem m oc hcr tm it).annualSales * oc) /
            (it.unitCost * hcr)) : ℤ)
      else jsRound (((computeItem m oc hcr tm it).annualSales / 12) * 3)) = _
    split_ifs with h
    · rw [roundSqrt_eq _
        (div_nonneg (by nlinarith [h.1, h.2]) (le_of_lt h.1))]
    · rw [jsRound,
        show (((((computeItem m oc hcr tm it).annualSales / 12) * 3 : ℚ) : ℝ) + 1/2) =
          ((((computeItem m oc hcr tm it).annualSales / 12) * 3 + 1/2 : ℚ) : ℝ)
          from by push_cast; ring,
        Rat.floor_cast]
  · rw [annualSales_def, hres]
    decide
  · have h := annualSales_def exSalesMap 50 (1/4) (3/10) exCostItem
    rw [hres] at h
    show (computeItem exSalesMap 50 (1/4) (3/10) exCostItem).annualSales / 365 = 2
    rw [h]
    norm_num [exAgg]
  · simp only [computeItem, hres, hT, hQ, jsRound]
    norm_num [exAgg]
  · simp only [computeItem, hres, hT, hQ]
    norm_num [exAgg]

/-- Witness for C2 at the spec's worked example (ordering cost 50 discharges
the nonnegativity hypothesis); the EOQ at this input is 70, the spec's §8
figure. -/
theorem c2_derived_metric_formulas_witness :
    (0 : ℚ) ≤ 50 ∧
    (computeItem exSalesMap 50 (1/4) (3/10) exCostItem).dailySales =
      (computeItem exSalesMap 50 (1/4) (3/10) exCostItem).annualSales / 365 ∧
    (computeItem exSalesMap 50 (1/4) (3/10) exCostItem).eoq = 70 := by
  refine ⟨by norm_num,
    (c2_derived_metric_formulas.1 exSalesMap 50 (1/4) (3/10) exCostItem (by norm_num)).1, ?_⟩
  have hres : resolveSales exSalesMap exCostItem = some exAgg := by decide
  have hrs : roundSqrt ((2 * 730 * 50) / (60 * (1/4)) : ℚ) = 70 :=
    (roundSqrt_eq_iff _ (by norm_num) 70 (by norm_num)).2 (by norm_num)
  simp only [computeItem, hres, exAgg]
  norm_num
  rw [if_pos (by norm_num [exCostItem])]
  exact_mod_cast hrs

/-! ### C6: header-row resolution -/

theorem range_find?_eq_some {p : ℕ → Bool} :
    ∀ {n i : ℕ}, (List.range n).find? p = some i →
      i < n ∧ p i = true ∧ ∀ j < i, p j = false := by
  intro n
  induction n with
  | zero => intro i h; simp [List.range_zero] at h
  | succ n ih =>
    intro i h
    rw [List.range_succ, List.find?_append] at h
    cases hf : (List.range n).find? p with
    | some i' =>
      rw [hf] at h
      simp only [Option.or_some] at h
      cases h
      have := ih hf
      exact ⟨Nat.lt_succ_of_lt this.1, this.2.1, this.2.2⟩
    | none =>
      rw [hf] at h
      simp only [Option.or] at h
      have hall := List.find?_eq_none.1 hf
      simp only [List.find?_cons, List.find?_nil] at h
      by_cases hp : p n
      · simp only [hp, if_true] at h
        cases h
        refine ⟨Nat.lt_succ_self _, hp, fun j hj => ?_⟩
        simpa using hall j (List.mem_range.2 hj)
      · simp [hp] at h

theorem range_find?_eq_none {p : ℕ → Bool} {n : ℕ}
    (h : (List.range n).find? p = none) : ∀ j < n, p j = false := by
  intro j hj
  simpa using List.find?_eq_none.1 h j (List.mem_range.2 hj)

/-- Half-rounding up: `(k + 1) / 2 = ⌈k * 0.5⌉`. -/
theorem succ_div_two_eq_ceil_half (k : ℕ) : ((k + 1) / 2 : ℕ) = ⌈(k : ℚ) * (1/2)⌉₊ := by
  rcases Nat.eq_zero_or_pos k with hk | hk
  · subst hk; simp
  · have hn : ((k + 1) / 2 : ℕ) ≠ 0 := by omega
    rw [eq_comm, Nat.ceil_eq_iff hn]
    have h1 : 2 * ((k + 1) / 2 - 1) < k := by omega
    have h2 : k ≤ 2 * ((k + 1) / 2) := by omega
    constructor
    · have : ((2 * ((k + 1) / 2 - 1) : ℕ) : ℚ) < (k : ℚ) := by exact_mod_cast h1
      push_cast at this ⊢
      linarith
    · have : (k : ℚ) ≤ ((2 * ((k + 1) / 2) : ℕ) : ℚ) := by exact_mod_cast h2
      push_cast at this ⊢
      linarith

/-- C6.  The Header Resolver selects the first row among the first
min(30, number of rows) rows whose lower-cased cells contain, as exact cell
values, at least ceil(0.5 * number of expected tokens) of the expected tokens;
if no row in that window qualifies, it selects row 0. -/
theorem c6_header_resolver (rows : List (List JVal)) (expected : List String) :
    (findHeaderRow rows expected < min 30 rows.length ∧
      (expected.filter (fun t =>
          ((rows.getD (findHeaderRow rows expected) []).map
            (fun x => lowerStr x.toStr)).contains (lowerStr t))).length ≥
        ⌈(expected.length : ℚ) * (1/2)⌉₊ ∧
      ∀ j < findHeaderRow rows expected,
        ¬ ((expected.filter (fun t =>
            ((rows.getD j []).map (fun x => lowerStr x.toStr)).contains
              (lowerStr t))).length ≥ ⌈(expected.length : ℚ) * (1/2)⌉₊)) ∨
    ((∀ j < min 30 rows.length,
        ¬ ((expected.filter (fun t =>
            ((rows.getD j []).map (fun x => lowerStr x.toStr)).contains
              (lowerStr t))).length ≥ ⌈(expected.length : ℚ) * (1/2)⌉₊)) ∧
      findHeaderRow rows expected = 0) := by
  have hceil := succ_div_two_eq_ceil_half expected.length
  have hmin : min rows.length 30 = min 30 rows.length := Nat.min_comm _ _
  rw [findHeaderRow]
  cases hf : (List.range (min rows.length 30)).find?
      (fun i =>
        decide ((expected.filter (fun h =>
          ((rows.getD i []).map (fun x => lowerStr x.toStr)).contains
            (lowerStr h))).length ≥ (expected.length + 1) / 2)) with
  | some i =>
    left
    obtain ⟨h1, h2, h3⟩ := range_find?_eq_some hf
    refine ⟨hmin ▸ h1, ?_, ?_⟩
    · rw [← hceil]
      simpa using h2
    · intro j hj
      rw [← hceil]
      simpa using h3 j hj
  | none =>
    right
    refine ⟨fun j hj => ?_, rfl⟩
    rw [← hceil]
    simpa using range_find?_eq_none hf j (hmin ▸ hj)

/-- A small grid whose header row is row 1 (row 0 is a junk banner row). -/
def exGrid : List (List JVal) :=
  [[JVal.str "junk"], [JVal.str "item", JVal.str "qty", JVal.str "amount"]]

/-- The expected sales header tokens (line 190). -/
def exSalesHeaders : List String :=
  ["item", "qty", "quantity", "amount", "total", "description"]

/-- Witness for C6: on exGrid the resolver picks row 1, which the theorem
places inside the scanned window. -/
theorem c6_header_resolver_witness :
    findHeaderRow exGrid exSalesHeaders = 1 ∧
    (findHeaderRow exGrid exSalesHeaders < min 30 exGrid.length ∨
      findHeaderRow exGrid exSalesHeaders = 0) := by
  constructor
  · decide
  · rcases c6_header_resolver exGrid exSalesHeaders with h | h
    · exact Or.inl h.1
    · exact Or.inr h.2

/-! ### C7: division-site guards -/

/-- C7.  Division sites are guarded: every cost row with unitPrice = 0 gets
profitMargin = 0 and profitPerUnit = 0; every derived item with
annualSales = 0 has infinite daysOfInventory and daysUntilStockout (`none`
encodes +Infinity; NaN cannot arise because a zero annualSales forces
dailySales = 0 and hence the Infinity branch of the guard, never 0/0). -/
theorem c7_division_guards :
    (∀ (rows : List Row) (it : CostItem), it ∈ handleCostRows rows →
      it.unitPrice = 0 → it.profitMargin = 0 ∧ it.profitPerUnit = 0) ∧
    (∀ (m : SalesMapL) (oc hcr tm : ℚ) (it : CostItem),
      (computeItem m oc hcr tm it).annualSales = 0 →
      (computeItem m oc hcr tm it).daysOfInventory = none ∧
      (computeItem m oc hcr tm it).daysUntilStockout = none) := by
  constructor
  · intro rows it hmem hzero
    rw [handleCostRows, List.mem_map] at hmem
    obtain ⟨row, _, rfl⟩ := hmem
    rw [costRowToItem] at hzero ⊢
    simp only at hzero ⊢
    rw [if_neg (by rw [hzero]; exact lt_irrefl 0), if_neg (by rw [hzero]; exact lt_irrefl 0)]
    exact ⟨rfl, rfl⟩
  · intro m oc hcr tm it h
    constructor
    · rw [daysOfInventory_def, dailySales_def, h]
      norm_num
    · rw [daysUntilStockout_def, dailySales_def, h]
      norm_num

/-- A cost row whose unit price is zero. -/
def exZeroRow : Row :=
  [("Item", JVal.str "Z1"), ("Average Item Rate", JVal.num 0),
    ("Average of Est. Unit Cost", JVal.num 60), ("Quantity", JVal.num 3)]

/-- Witness for C7: the zero-price row is kept by handleCost and gets zero
margin and profit; an item with no sales data gets infinite
daysOfInventory and daysUntilStockout. -/
theorem c7_division_guards_witness :
    (costRowToItem exZeroRow ∈ handleCostRows [exZeroRow] ∧
      (costRowToItem exZeroRow).unitPrice = 0 ∧
      (costRowToItem exZeroRow).profitMargin = 0 ∧
      (costRowToItem exZeroRow).profitPerUnit = 0) ∧
    ((computeItem [] 50 (1/4) (3/10) exCostItem).annualSales = 0 ∧
      (computeItem [] 50 (1/4) (3/10) exCostItem).daysOfInventory = none ∧
      (computeItem [] 50 (1/4) (3/10) exCostItem).daysUntilStockout = none) := by
  have hmem : costRowToItem exZeroRow ∈ handleCostRows [exZeroRow] := by
    rw [handleCostRows, List.mem_map]
    exact ⟨exZeroRow, by decide, rfl⟩
  have hzero : (costRowToItem exZeroRow).unitPrice = 0 := by decide
  have hann : (computeItem [] 50 (1/4) (3/10) exCostItem).annualSales = 0 := by
    rw [annualSales_def]
    decide
  have h1 := c7_division_guards.1 [exZeroRow] (costRowToItem exZeroRow) hmem hzero
  have h2 := c7_division_guards.2 [] 50 (1/4) (3/10) exCostItem hann
  exact ⟨⟨hmem, hzero, h1.1, h1.2⟩, hann, h2.1, h2.2⟩

/-! ### C8: slow-mover classification is antitone in slowCost -/

/-- C8.  With everything else fixed, raising slowCost never adds a slow
mover: the slow-mover set at a threshold slowCost' ≥ slowCost is contained in
the one at slowCost. -/
theorem c8_slow_movers_antitone (costData : List CostItem) (m : SalesMapL)
    (oc hcr tm slowDays : ℚ) {slowCost slowCost' : ℚ} (h : slowCost ≤ slowCost') :
    ∀ it, it ∈ slowMoversOf costData m oc hcr tm slowCost' slowDays →
      it ∈ slowMoversOf costData m oc hcr tm slowCost slowDays := by
  intro it hmem
  rw [slowMoversOf, sortByDesc, mem_stableSort, List.mem_filter] at hmem ⊢
  refine ⟨hmem.1, ?_⟩
  have hp := hmem.2
  simp only [slowPred, Bool.and_eq_true, decide_eq_true_eq] at hp ⊢
  exact ⟨lt_of_le_of_lt h hp.1, hp.2⟩

/-- Witness for C8: with no sales data, exCostItem (total cost 600,
quantity 10) is a slow mover at threshold 500, hence also at 400. -/
theorem c8_slow_movers_antitone_witness :
    (400 : ℚ) ≤ 500 ∧
    computeItem [] 50 (1/4) (3/10) exCostItem ∈
      slowMoversOf [exCostItem] [] 50 (1/4) (3/10) 500 180 ∧
    computeItem [] 50 (1/4) (3/10) exCostItem ∈
      slowMoversOf [exCostItem] [] 50 (1/4) (3/10) 400 180 := by
  have hann : (computeItem [] 50 (1/4) (3/10) exCostItem).annualSales = 0 := by
    rw [annualSales_def]
    decide
  have hmem : computeItem [] 50 (1/4) (3/10) exCostItem ∈
      slowMoversOf [exCostItem] [] 50 (1/4) (3/10) 500 180 := by
    rw [slowMoversOf, sortByDesc, mem_stableSort, List.mem_filter]
    constructor
    · rw [itemsOf]
      simp
    · simp only [slowPred, Bool.and_eq_true, decide_eq_true_eq]
      refine ⟨?_, Or.inr hann, ?_⟩
      · rw [show (computeItem [] 50 (1/4) (3/10) exCostItem).toCostItem = exCostItem
          from rfl]
        norm_num [exCostItem]
      · rw [show (computeItem [] 50 (1/4) (3/10) exCostItem).toCostItem = exCostItem
          from rfl]
        norm_num [exCostItem]
  exact ⟨by norm_num, hmem,
    c8_slow_movers_antitone [exCostItem] [] 50 (1/4) (3/10) 180 (by norm_num) _ hmem⟩

/-! ### C10: dead stock never reports as stockout risk -/

/-- Any member of itemsOf is a computeItem image. -/
theorem mem_itemsOf {costData : List CostItem} {m : SalesMapL} {oc hcr tm : ℚ}
    {it : DerivedItem} (h : it ∈ itemsOf costData m oc hcr tm) :
    ∃ c ∈ costData, it = computeItem m oc hcr tm c := by
  rw [itemsOf, List.mem_map] at h
  obtain ⟨c, hc, rfl⟩ := h
  exact ⟨c, hc, rfl⟩

/-- An item with zero annual sales has infinite (none) daysUntilStockout. -/
theorem daysUntilStockout_eq_none_of_annualSales_eq_zero {m : SalesMapL}
    {oc hcr tm : ℚ} {c : CostItem}
    (h : (computeItem m oc hcr tm c).annualSales = 0) :
    (computeItem m oc hcr tm c).daysUntilStockout = none := by
  rw [daysUntilStockout_def, dailySales_def, h]
  norm_num

/-- C10.  An item with annualSales = 0 never appears in criticalStockouts
(its infinite daysUntilStockout fails the finiteness check) nor in
warningStockouts (Infinity fails the ≤ 60 bound), and the two stockout sets
are disjoint (their day-bounds contradict). -/
theorem c10_dead_stock_not_stockout :
    (∀ (costData : List CostItem) (m : SalesMapL) (oc hcr tm : ℚ) (it : DerivedItem),
      it ∈ criticalStockoutsOf costData m oc hcr tm → it.annualSales ≠ 0) ∧
    (∀ (costData : List CostItem) (m : SalesMapL) (oc hcr tm : ℚ) (it : DerivedItem),
      it ∈ warningStockoutsOf costData m oc hcr tm → it.annualSales ≠ 0) ∧
    (∀ (costData : List CostItem) (m : SalesMapL) (oc hcr tm : ℚ) (it : DerivedItem),
      ¬ (it ∈ criticalStockoutsOf costData m oc hcr tm ∧
        it ∈ warningStockoutsOf costData m oc hcr tm)) := by
  refine ⟨?_, ?_, ?_⟩
  · intro costData m oc hcr tm it hmem hzero
    rw [criticalStockoutsOf, sortByStockout, mem_stableSort, List.mem_filter] at hmem
    obtain ⟨c, _, rfl⟩ := mem_itemsOf hmem.1
    have hnone := daysUntilStockout_eq_none_of_annualSales_eq_zero hzero
    have hp := hmem.2
    simp only [criticalPred, Bool.and_eq_true, decide_eq_true_eq, hnone] at hp
    exact absurd hp.1 (by simp [jleOpt])
  · intro costData m oc hcr tm it hmem hzero
    rw [warningStockoutsOf, sortByStockout, mem_stableSort, List.mem_filter] at hmem
    obtain ⟨c, _, rfl⟩ := mem_itemsOf hmem.1
    have hnone := daysUntilStockout_eq_none_of_annualSales_eq_zero hzero
    have hp := hmem.2
    simp only [warningPred, Bool.and_eq_true, decide_eq_true_eq, hnone] at hp
    exact absurd hp.2.1 (by simp [jleOpt])
  · rintro costData m oc hcr tm it ⟨hc, hw⟩
    rw [criticalStockoutsOf, sortByStockout, mem_stableSort, List.mem_filter] at hc
    rw [warningStockoutsOf, sortByStockout, mem_stableSort, List.mem_filter] at hw
    have hpc := hc.2
    have hpw := hw.2
    simp only [criticalPred, warningPred, Bool.and_eq_true, decide_eq_true_eq] at hpc hpw
    cases hd : it.daysUntilStockout with
    | none => rw [hd] at hpc; exact absurd hpc.1 (by simp [jleOpt])
    | some q =>
      rw [hd] at hpc hpw
      have h1 : q ≤ 30 := by simpa [jleOpt] using hpc.1
      have h2 : (30 : ℚ) < q := by simpa [jgtOpt] using hpw.1
      linarith

/-- A high-value cost item (total cost 2000) used for stockout examples. -/
def exBigItem : CostItem where
  fullItem := "BIG1 : Widget"
  itemCode := "BIG1"
  itemType := "New"
  unitPrice := 300
  unitCost := 200
  Quantity := 10
  profitPerUnit := 100
  profitMargin := 100/3
  totalProfit := 1000
  totalRevenue := 3000
  totalCost := 2000

/-- Sales of 730 a year for exBigItem. -/
def exBigMap : SalesMapL :=
  [("BIG1", { item := "BIG1", description := "", totalQtySold := 730, totalRevenue := 0 })]

/-- Witness for C10: exBigItem runs out in 5 days and is a critical stockout;
the theorem then yields nonzero sales and excludes it from the warning set. -/
theorem c10_dead_stock_not_stockout_witness :
    computeItem exBigMap 50 (1/4) (3/10) exBigItem ∈
      criticalStockoutsOf [exBigItem] exBigMap 50 (1/4) (3/10) ∧
    (computeItem exBigMap 50 (1/4) (3/10) exBigItem).annualSales ≠ 0 ∧
    ¬ (computeItem exBigMap 50 (1/4) (3/10) exBigItem ∈
        criticalStockoutsOf [exBigItem] exBigMap 50 (1/4) (3/10) ∧
      computeItem exBigMap 50 (1/4) (3/10) exBigItem ∈
        warningStockoutsOf [exBigItem] exBigMap 50 (1/4) (3/10)) := by
  have hann : (computeItem exBigMap 50 (1/4) (3/10) exBigItem).annualSales = 730 := by
    rw [annualSales_def]
    decide
  have hd : (computeItem exBigMap 50 (1/4) (3/10) exBigItem).daysUntilStockout = some 5 := by
    rw [daysUntilStockout_def, dailySales_def, hann]
    norm_num [exBigItem]
  have hmem : computeItem exBigMap 50 (1/4) (3/10) exBigItem ∈
      criticalStockoutsOf [exBigItem] exBigMap 50 (1/4) (3/10) := by
    rw [criticalStockoutsOf, sortByStockout, mem_stableSort, List.mem_filter]
    constructor
    · rw [itemsOf]
      simp
    · simp only [criticalPred, Bool.and_eq_true, decide_eq_true_eq, hd]
      refine ⟨by norm_num [jleOpt], by simp, ?_⟩
      rw [show (computeItem exBigMap 50 (1/4) (3/10) exBigItem).toCostItem = exBigItem
        from rfl]
      norm_num [exBigItem]
  exact ⟨hmem, c10_dead_stock_not_stockout.1 [exBigItem] exBigMap 50 (1/4) (3/10) _ hmem,
    c10_dead_stock_not_stockout.2.2 [exBigItem] exBigMap 50 (1/4) (3/10) _⟩

/-! ### C9: the CSV serializer

The claim says every scalar value is individually quoted.  In the source the
values go through JSON.stringify, which quotes strings but renders numbers
bare, so the claim fails on any numeric field; the amended statement keeps
the line structure and the quoting of string values. -/

/-- Join character lists with a separator list (the characters of
`arr.join(sep)`). -/
def joinData (sep : List Char) : List (List Char) → List Char
  | [] => []
  | [x] => x
  | x :: y :: xs => x ++ sep ++ joinData sep (y :: xs)

/-- Split a character list at every occurrence of a character. -/
def splitData (c : Char) : List Char → List (List Char)
  | [] => [[]]
  | ch :: rest =>
    let r := splitData c rest
    if ch = c then [] :: r else (ch :: r.headD []) :: r.tail

/-- Split a string at every occurrence of a character. -/
def splitOnChar (c : Char) (s : String) : List String :=
  (splitData c s.data).map String.mk

theorem joinWith_data (sep : String) :
    ∀ ls : List String, (joinWith sep ls).data = joinData sep.data (ls.map String.data) := by
  intro ls
  induction ls with
  | nil => rfl
  | cons x xs ih =>
    cases xs with
    | nil => rfl
    | cons y ys =>
      show (x ++ sep ++ joinWith sep (y :: ys)).data = _
      rw [String.data_append, String.data_append, ih]
      rfl

theorem splitData_ne_nil (c : Char) : ∀ l, splitData c l ≠ [] := by
  intro l
  induction l with
  | nil => simp [splitData]
  | cons ch rest ih =>
    rw [splitData]
    by_cases h : ch = c <;> simp [h]

theorem splitData_of_not_mem {c : Char} : ∀ {l : List Char}, c ∉ l → splitData c l = [l] := by
  intro l
  induction l with
  | nil => intro _; rfl
  | cons ch rest ih =>
    intro h
    have hch : ¬ ch = c := fun he => h (by simp [he])
    have hrest : c ∉ rest := fun hm => h (by simp [hm])
    rw [splitData, ih hrest]
    simp [hch]

theorem splitData_append_cons {c : Char} :
    ∀ {x : List Char} (t : List Char), c ∉ x →
      splitData c (x ++ c :: t) = x :: splitData c t := by
  intro x
  induction x with
  | nil => intro t _; simp [splitData]
  | cons ch rest ih =>
    intro t h
    have hch : ¬ ch = c := fun he => h (by simp [he])
    have hrest : c ∉ rest := fun hm => h (by simp [hm])
    rw [List.cons_append, splitData, ih t hrest]
    simp [hch]

/-- Splitting a separator-free join recovers the pieces. -/
theorem splitData_joinData (c : Char) :
    ∀ ls : List (List Char), ls ≠ [] → (∀ l ∈ ls, c ∉ l) →
      splitData c (joinData [c] ls) = ls := by
  intro ls
  induction ls with
  | nil => intro h; exact absurd rfl h
  | cons x xs ih =>
    intro _ hmem
    cases xs with
    | nil => exact splitData_of_not_mem (hmem x (by simp))
    | cons y ys =>
      rw [joinData, show (x ++ [c] ++ joinData [c] (y :: ys)) =
        (x ++ c :: joinData [c] (y :: ys)) by simp]
      rw [splitData_append_cons _ (hmem x (by simp))]
      rw [ih (by simp) (fun l hl => hmem l (by simp [hl]))]

/-- C9 counterexample: on the one-row set with the single numeric field a = 5
the serializer emits the line "5" with no quotes around the scalar value
(JSON.stringify quotes only strings). -/
theorem c9_counterexample_numeric_value_unquoted :
    downloadCSVText [[("a", JVal.num 5)]] = some "a\n5" ∧
    jsonStringify (JVal.num 5) = "5" ∧
    ¬ ('"' ∈ "5".data) := by
  refine ⟨by decide, by decide, by decide⟩

/-- C9 (amended).  For a non-empty row set whose serialized cells and header
names contain no newline, the emitted text consists of exactly one header
line listing the field names followed by one line per row in order; every
line is the comma-join of its fields, every string value is individually
quoted (JSON-serialized), while numeric values are rendered bare. -/
theorem c9_serializer_lines (r0 : Row) (rest : List Row)
    (hh : '\n' ∉ (joinWith "," (r0.map (fun kv => kv.1))).data)
    (hv : ∀ r ∈ r0 :: rest,
      '\n' ∉ (joinWith "," ((r0.map (fun kv => kv.1)).map
        (fun h => jsonStringify ((rawLookup r h).getD (.str ""))))).data) :
    ∃ text, downloadCSVText (r0 :: rest) = some text ∧
      splitOnChar '\n' text =
        joinWith "," (r0.map (fun kv => kv.1)) ::
          (r0 :: rest).map (fun r => joinWith ","
            ((r0.map (fun kv => kv.1)).map
              (fun h => jsonStringify ((rawLookup r h).getD (.str ""))))) ∧
      (splitOnChar '\n' text).length = (r0 :: rest).length + 1 ∧
      (∀ s : String, ((jsonStringify (JVal.str s)).data.head? = some '"' ∧
        (jsonStringify (JVal.str s)).data.getLast? = some '"')) := by
  have hside : ∀ l ∈ ((joinWith "," (r0.map (fun kv => kv.1)) ::
      (r0 :: rest).map (fun r => joinWith ","
        ((r0.map (fun kv => kv.1)).map
          (fun h => jsonStringify ((rawLookup r h).getD (.str "")))))).map
        String.data), '\n' ∉ l := by
    intro l hl
    rw [List.mem_map] at hl
    obtain ⟨s, hs, rfl⟩ := hl
    rcases List.mem_cons.1 hs with rfl | hs2
    · exact hh
    · obtain ⟨r, hr, rfl⟩ := List.mem_map.1 hs2
      exact hv r hr
  have hsplit : splitOnChar '\n' (joinWith "\n"
      (joinWith "," (r0.map (fun kv => kv.1)) ::
        (r0 :: rest).map (fun r => joinWith ","
          ((r0.map (fun kv => kv.1)).map
            (fun h => jsonStringify ((rawLookup r h).getD (.str ""))))))) =
      joinWith "," (r0.map (fun kv => kv.1)) ::
        (r0 :: rest).map (fun r => joinWith ","
          ((r0.map (fun kv => kv.1)).map
            (fun h => jsonStringify ((rawLookup r h).getD (.str ""))))) := by
    rw [splitOnChar, joinWith_data]
    rw [show ("\n".data) = ['\n'] from rfl]
    rw [splitData_joinData _ _ (by simp) hside]
    simp
  refine ⟨_, rfl, hsplit, ?_, ?_⟩
  · rw [hsplit]
    simp
  · intro s
    constructor
    · rfl
    · show (('"' :: (String.join ((s.data.map escChar))).data) ++ ['"']).getLast? = some '"'
      rw [List.getLast?_append]
      rfl

/-- A row with one numeric and one string field for the serializer example. -/
def exCsvRow : Row := [("a", JVal.num 5), ("b", JVal.str "x")]

/-- Witness for the amended C9: a two-field row serializes to a header line
"a,b" and a data line with the number bare and the string quoted. -/
theorem c9_serializer_lines_witness :
    ∃ text, downloadCSVText [exCsvRow] = some text ∧
      splitOnChar '\n' text = ["a,b", "5,\"x\""] := by
  obtain ⟨text, h1, h2, _, _⟩ :=
    c9_serializer_lines exCsvRow [] (by decide) (by decide)
  refine ⟨text, h1, ?_⟩
  rw [h2]
  decide

/-! ### C4: extension validation

The claim says every category validates the extension and fails with
FormatError before parsing.  Only handleCost calls ensureExt; the sales,
customer and supplier handlers branch on the ".csv" suffix and hand any
other file straight to the workbook decoder. -/

/-- C4 counterexample: a sales upload named "data.txt" (an extension accepted
by no upload slot) is not rejected: with a workbook decoder that returns an
empty grid the call succeeds, so no FormatError precedes parsing. -/
theorem c4_counterexample_sales_txt_not_rejected :
    ensureExt "data.txt" [".csv", ".xls", ".xlsx"] = false ∧
    handleSales (fun _ => .ok []) (fun _ => .ok []) (JFile.mk "data.txt" ()) =
      .ok (salesFromGrid []) ∧
    handleSales (fun _ => .ok []) (fun _ => .ok []) (JFile.mk "data.txt" ()) ≠
      .error .formatErr := by
  have h : handleSales (fun _ => .ok []) (fun _ => .ok [])
      (JFile.mk "data.txt" ()) = .ok (salesFromGrid []) := rfl
  refine ⟨by decide, h, ?_⟩
  rw [h]
  intro hx
  exact Except.noConfusion hx

/-- C4 (amended).  Only the cost slot validates the file extension: a cost
upload whose name does not end in ".csv" fails with FormatError for every
parser behavior (so before any parsing) and leaves the state unchanged; the
sales, customer and supplier handlers never produce a FormatError — a
non-.csv name sends the contents to the workbook decoder. -/
theorem c4_extension_gate (α : Type) :
    (∀ (parse : α → Except IngestErr (List Row)) (f : JFile α) (st : AppState),
      ensureExt f.name [".csv"] = false →
      handleCost parse f = .error .formatErr ∧ (applyCost parse f st).1 = st) ∧
    (∀ (parseC : α → Except IngestErr (List Row))
        (parseW : α → Except IngestErr (List (List JVal))) (f : JFile α),
      endsWithStr (lowerStr f.name) ".csv" = false →
      handleSales parseC parseW f = (parseW f.contents).map salesFromGrid ∧
      handleCustomer parseC parseW f = (parseW f.contents).map customerFromGrid ∧
      handleSupplier parseC parseW f = (parseW f.contents).map handleSupplierX) := by
  constructor
  · intro parse f st h
    have hc : handleCost parse f = .error .formatErr := by
      rw [handleCost, h]
      rfl
    exact ⟨hc, by rw [applyCost, hc]⟩
  · intro parseC parseW f h
    refine ⟨?_, ?_, ?_⟩
    · rw [handleSales, h]
      rfl
    · rw [handleCustomer, h]
      rfl
    · rw [handleSupplier, h]
      rfl

/-- Witness for the amended C4: a cost upload named "data.txt" fails with
FormatError and leaves an empty state unchanged; a sales upload of the same
name goes to the workbook decoder. -/
theorem c4_extension_gate_witness :
    ensureExt "data.txt" [".csv"] = false ∧
    handleCost (fun _ => .ok [exRow]) (JFile.mk "data.txt" ()) = .error .formatErr ∧
    (applyCost (fun _ => .ok [exRow]) (JFile.mk "data.txt" ())
        (AppState.mk [] [] [] (SupplierRes.mk [] []))).1 =
      AppState.mk [] [] [] (SupplierRes.mk [] []) ∧
    handleSales (fun _ => .ok []) (fun _ => .ok []) (JFile.mk "data.txt" ()) =
      .ok (salesFromGrid []) := by
  have h1 := (c4_extension_gate Unit).1 (fun _ => .ok [exRow]) (JFile.mk "data.txt" ())
    (AppState.mk [] [] [] (SupplierRes.mk [] [])) (by decide)
  have h2 := ((c4_extension_gate Unit).2 (fun _ => .ok [])
    (fun _ => .ok []) (JFile.mk "data.txt" ()) (by decide)).1
  exact ⟨by decide, h1.1, h1.2, by rw [h2]; rfl⟩

/-! ### C5: the Field Picker and findCol -/

theorem find?_prefix_false {α : Type} (p : α → Bool) :
    ∀ pre (x : α) (post : List α), (∀ y ∈ pre, p y = false) → p x = true →
      (pre ++ x :: post).find? p = some x := by
  intro pre
  induction pre with
  | nil => intro x post _ hx; simp [List.find?_cons, hx]
  | cons a pre ih =>
    intro x post hpre hx
    have ha : p a = false := hpre a (by simp)
    simp only [List.cons_append, List.find?_cons, ha]
    exact ih x post (fun y hy => hpre y (by simp [hy])) hx

theorem range_find?_getD (d : String) (p : String → Bool) :
    ∀ K : List String,
      (List.range K.length).find? (fun i => p (K.getD i d)) = K.findIdx? p := by
  intro K
  induction K with
  | nil => simp
  | cons k K ih =>
    rw [List.length_cons, List.range_succ_eq_map]
    by_cases hp : p k
    · rw [List.find?_cons_of_pos _ (by simpa using hp), List.findIdx?_cons, if_pos hp]
    · rw [List.find?_cons_of_neg _ (by simpa using hp), List.findIdx?_cons, if_neg hp,
        List.findIdx?_succ, List.find?_map, ← ih]
      congr 1

theorem findIdx?_lt_length {K : List String} {p : String → Bool} {i : ℕ}
    (h : K.findIdx? p = some i) : i < K.length := by
  rcases List.findIdx?_eq_some_iff_getElem.1 h with ⟨hlt, _⟩
  exact hlt

/-- findCol as an optional index: exact phase first, then substring phase,
with -1 encoded as none. -/
theorem findCol_eq (hdr A : List String) :
    findCol hdr A =
      (match (A.findSome?
          (fun c => (hdr.map lowerStr).findIdx? (fun h => h = lowerStr c))).orElse
          (fun _ => (hdr.map lowerStr).findIdx?
            (fun key => A.any (fun c => containsSub key (lowerStr c)))) with
      | some i => Int.ofNat i
      | none => -1) := by
  rw [findCol,
    range_find?_getD "" (fun key => A.any (fun c => containsSub key (lowerStr c)))]
  cases hf : A.findSome?
      (fun c => (hdr.map lowerStr).findIdx? (fun h => h = lowerStr c)) with
  | some i => rfl
  | none =>
    show (match (hdr.map lowerStr).findIdx?
        (fun key => A.any (fun c => containsSub key (lowerStr c))) with
      | some i => Int.ofNat i
      | none => -1) = _
    cases (hdr.map lowerStr).findIdx?
        (fun key => A.any (fun c => containsSub key (lowerStr c))) <;> rfl

theorem findIdx?_prefix_false {α : Type} (p : α → Bool) :
    ∀ pre (x : α) (post : List α), (∀ y ∈ pre, p y = false) → p x = true →
      (pre ++ x :: post).findIdx? p = some pre.length := by
  intro pre
  induction pre with
  | nil => intro x post _ hx; simp [List.findIdx?_cons, hx]
  | cons a pre ih =>
    intro x post hpre hx
    have ha : p a = false := hpre a (by simp)
    rw [List.cons_append, List.findIdx?_cons, if_neg (by simp [ha]), List.findIdx?_succ,
      ih x post (fun y hy => hpre y (by simp [hy])) hx]
    rfl

/-- C5.  The Field Picker returns the value of the first alias whose
lower-cased/trimmed form exactly matches a normalized row key; failing that,
the value of the first row key that contains any alias as a substring; and
absent (none) when neither phase matches.  The example row
with the single key "quantity sold" yields 5 for aliases [Qty, Quantity] via
the substring fallback.  findCol obeys the same two-phase rule over a header
array and returns -1 for absent. -/
theorem c5_field_picker :
    (∀ (row : Row) (keys : List String) pre k post (v : JVal),
      keys = pre ++ k :: post →
      (∀ k' ∈ pre, jlookup (lowerKeys row) (lowTrim k') = none) →
      jlookup (lowerKeys row) (lowTrim k) = some v →
      pick row keys = some v) ∧
    (∀ (row : Row) (keys : List String) pre (key : String) (v : JVal) post,
      (∀ k' ∈ keys, jlookup (lowerKeys row) (lowTrim k') = none) →
      lowerKeys row = pre ++ (key, v) :: post →
      (∀ kv ∈ pre, keys.any (fun c => containsSub kv.1 (lowTrim c)) = false) →
      keys.any (fun c => containsSub key (lowTrim c)) = true →
      pick row keys = some v) ∧
    (∀ (row : Row) (keys : List String),
      (∀ k' ∈ keys, jlookup (lowerKeys row) (lowTrim k') = none) →
      (∀ kv ∈ lowerKeys row, keys.any (fun c => containsSub kv.1 (lowTrim c)) = false) →
      pick row keys = none) ∧
    ((∀ k' ∈ ["Qty", "Quantity"],
        jlookup (lowerKeys [("quantity sold", JVal.num 5)]) (lowTrim k') = none) ∧
      pick [("quantity sold", JVal.num 5)] ["Qty", "Quantity"] = some (JVal.num 5)) ∧
    (∀ (hdr : List String) (candidates : List String) pre c post (i : ℕ),
      candidates = pre ++ c :: post →
      (∀ c' ∈ pre, (hdr.map lowerStr).findIdx? (fun h => h = lowerStr c') = none) →
      (hdr.map lowerStr).findIdx? (fun h => h = lowerStr c) = some i →
      findCol hdr candidates = Int.ofNat i) ∧
    (∀ (hdr : List String) (candidates : List String) pre (key : String) post,
      (∀ c' ∈ candidates,
        (hdr.map lowerStr).findIdx? (fun h => h = lowerStr c') = none) →
      hdr.map lowerStr = pre ++ key :: post →
      (∀ k' ∈ pre, candidates.any (fun c => containsSub k' (lowerStr c)) = false) →
      candidates.any (fun c => containsSub key (lowerStr c)) = true →
      findCol hdr candidates = Int.ofNat pre.length) ∧
    (∀ (hdr : List String) (candidates : List String),
      (∀ c' ∈ candidates,
        (hdr.map lowerStr).findIdx? (fun h => h = lowerStr c') = none) →
      (∀ i < hdr.length,
        candidates.any
          (fun c => containsSub ((hdr.map lowerStr).getD i "") (lowerStr c)) = false) →
      findCol hdr candidates = -1) := by
  refine ⟨?_, ?_, ?_, ⟨by decide, by decide⟩, ?_, ?_, ?_⟩
  · intro row keys pre k post v hsplit hpre hk
    rw [pick, hsplit,
      findSome?_prefix_none (fun k => jlookup (lowerKeys row) (lowTrim k)) pre k post v
        hpre hk]
  · intro row keys pre key v post hexact hrow hpre hkey
    rw [pick, List.findSome?_eq_none_iff.2 hexact, hrow,
      find?_prefix_false _ pre (key, v) post hpre hkey]
    rfl
  · intro row keys hexact hsub
    rw [pick, List.findSome?_eq_none_iff.2 hexact,
      List.find?_eq_none.2 (fun kv hkv => by simp [hsub kv hkv])]
    rfl
  · intro hdr candidates pre c post i hsplit hpre hc
    rw [findCol, hsplit,
      findSome?_prefix_none
        (fun c => (hdr.map lowerStr).findIdx? (fun h => h = lowerStr c)) pre c post i
        hpre hc]
  · intro hdr candidates pre key post hexact hsplit hpre hkey
    rw [findCol_eq, List.findSome?_eq_none_iff.2 hexact]
    have hidx : (hdr.map lowerStr).findIdx?
        (fun k => candidates.any (fun c => containsSub k (lowerStr c))) = some pre.length := by
      rw [hsplit]
      exact findIdx?_prefix_false _ pre key post hpre hkey
    show (match (hdr.map lowerStr).findIdx?
        (fun k => candidates.any (fun c => containsSub k (lowerStr c))) with
      | some i => Int.ofNat i
      | none => -1) = Int.ofNat pre.length
    rw [hidx]
  · intro hdr candidates hexact hsub
    rw [findCol, List.findSome?_eq_none_iff.2 hexact]
    rw [List.find?_eq_none.2]
    intro i hi
    rw [List.mem_range, List.length_map] at hi
    rw [hsub i hi]
    exact Bool.false_ne_true

/-- Witness for C5: the alias "Qty" exact-matches the key "qty" with no
earlier alias, so the picker returns its value; findCol resolves the aliases
against the single header "quantity sold" through the substring fallback,
returning column 0. -/
theorem c5_field_picker_witness :
    pick [("qty", JVal.num 7)] ["Qty", "Quantity"] = some (JVal.num 7) ∧
    findCol ["quantity sold"] ["Qty", "Quantity"] = Int.ofNat 0 := by
  constructor
  · exact c5_field_picker.1 [("qty", JVal.num 7)] ["Qty", "Quantity"] [] "Qty" ["Quantity"]
      (JVal.num 7) rfl (by decide) (by decide)
  · exact c5_field_picker.2.2.2.2.2.1 ["quantity sold"] ["Qty", "Quantity"] []
      "quantity sold" [] (by decide) (by decide) (by decide) (by decide)

/-! ### C3: the two supplier ingestion paths

The delimited-text path and the binary-spreadsheet path share the alias
tables and filters, but the binary path's line-item literal (line 289) has no
date property while the delimited path stores the picked Date value
(line 259).  The delimited path also stores the quantity unguarded
(`Number(pick(...) || 0)`, line 259), so a truthy non-numeric Quantity string
yields NaN there, where the binary path stores `qty || 0 = 0` (line 289).
The two result sets therefore differ exactly in the date field and in that
`|| 0` quantity normalization; everything else is proved equal below. -/

theorem jStr_str (s : String) : jStr (some (JVal.str s)) = s := by
  by_cases h : s = ""
  · subst h
    rfl
  · simp [jStr, JVal.truthy, JVal.toStr, h]

theorem objInsert_of_not_mem {o : List (String × JVal)} {k : String} (v : JVal)
    (h : o.any (fun kv => kv.1 = k) = false) : objInsert o k v = o ++ [(k, v)] := by
  rw [objInsert, if_neg]
  rw [h]
  exact Bool.false_ne_true

theorem fromEntries_aux :
    ∀ (l o : List (String × JVal)), (l.map Prod.fst).Nodup →
      (∀ kv ∈ l, o.any (fun kv2 => kv2.1 = kv.1) = false) →
      l.foldl (fun o kv => objInsert o kv.1 kv.2) o = o ++ l := by
  intro l
  induction l with
  | nil => intro o _ _; simp
  | cons kv l ih =>
    intro o hnd hdisj
    rw [List.foldl_cons, objInsert_of_not_mem kv.2 (hdisj kv (by simp))]
    rw [List.map_cons, List.nodup_cons] at hnd
    rw [ih (o ++ [(kv.1, kv.2)]) hnd.2 ?_]
    · simp
    · intro kv2 hkv2
      rw [List.any_append]
      have h1 : o.any (fun kv3 => kv3.1 = kv2.1) = false := hdisj kv2 (by simp [hkv2])
      have h2 : kv.1 ≠ kv2.1 := by
        intro he
        exact hnd.1 (he ▸ List.mem_map_of_mem Prod.fst hkv2)
      rw [h1]
      simp [h2]

theorem fromEntries_of_nodup (l : List (String × JVal))
    (h : (l.map Prod.fst).Nodup) : fromEntries l = l := by
  rw [fromEntries, fromEntries_aux l [] h (fun kv _ => rfl)]
  rfl

theorem findSome?_congr {α β : Type} {f g : α → Option β} :
    ∀ {A : List α}, (∀ a ∈ A, f a = g a) → A.findSome? f = A.findSome? g := by
  intro A
  induction A with
  | nil => intro _; rfl
  | cons a A ih =>
    intro h
    rw [List.findSome?_cons, List.findSome?_cons, h a (by simp),
      ih (fun x hx => h x (by simp [hx]))]

theorem findSome?_bind_total {α β γ : Type} (g : α → Option β) (h : β → Option γ)
    (htot : ∀ a b, g a = some b → (h b).isSome = true) :
    ∀ A : List α, A.findSome? (fun a => (g a).bind h) = (A.findSome? g).bind h := by
  intro A
  induction A with
  | nil => rfl
  | cons a A ih =>
    rw [List.findSome?_cons, List.findSome?_cons]
    cases hg : g a with
    | none => simpa [hg] using ih
    | some b =>
      have hs := htot a b hg
      cases hh : h b with
      | none => rw [hh] at hs; exact absurd hs (by simp)
      | some c => simp [hg, hh]

theorem any_congr {α : Type} {f g : α → Bool} :
    ∀ {A : List α}, (∀ a ∈ A, f a = g a) → A.any f = A.any g := by
  intro A
  induction A with
  | nil => intro _; rfl
  | cons a A ih =>
    intro h
    rw [List.any_cons, List.any_cons, h a (by simp), ih (fun x hx => h x (by simp [hx]))]

theorem find?_zip_eq (p : String → Bool) :
    ∀ {K : List String} {cells : List JVal}, cells.length = K.length →
      ((K.zip cells).find? (fun kv => p kv.1)).map (fun kv => kv.2) =
        (K.findIdx? p).bind (fun i => cells.get? i) := by
  intro K
  induction K with
  | nil => intro cells _; simp
  | cons k K ih =>
    intro cells hlen
    cases cells with
    | nil => simp at hlen
    | cons c cells =>
      rw [List.zip_cons_cons]
      by_cases hp : p k
      · rw [List.find?_cons_of_pos _ (by simpa using hp), List.findIdx?_cons, if_pos hp]
        simp
      · rw [List.find?_cons_of_neg _ (by simpa using hp), List.findIdx?_cons, if_neg hp,
          List.findIdx?_succ, ih (by simpa using hlen)]
        cases hidx : K.findIdx? p <;> simp


/-- On a row zipped from a header and a cell list with distinct normalized
header names, pick agrees with positional access through findCol. -/
theorem pick_zip_eq (hdr : List String) (cells : List JVal) (A : List String)
    (h1 : (hdr.map lowerStr).Nodup)
    (h3 : ∀ h ∈ hdr, lowTrim h = lowerStr h)
    (hA : ∀ a ∈ A, lowTrim a = lowerStr a)
    (hlen : cells.length = hdr.length) :
    pick (hdr.zip cells) A = jAt cells (findCol hdr A) := by
  have hlen2 : cells.length = (hdr.map lowerStr).length := by
    rw [List.length_map]
    exact hlen
  have hkeys : lowerKeys (hdr.zip cells) = (hdr.map lowerStr).zip cells := by
    rw [lowerKeys]
    have hmap : (hdr.zip cells).map (fun kv => (lowTrim kv.1, kv.2)) =
        (hdr.map lowerStr).zip cells := by
      rw [List.zip_map_left]
      apply List.map_congr_left
      intro kv hkv
      show (lowTrim kv.1, kv.2) = Prod.map lowerStr id kv
      rw [h3 kv.1 (List.of_mem_zip hkv).1]
      rfl
    rw [hmap, fromEntries_of_nodup]
    rw [List.map_fst_zip _ _ (le_of_eq hlen2.symm)]
    exact h1
  have htot : ∀ (a : String) (i : ℕ),
      (hdr.map lowerStr).findIdx? (fun h => h = lowerStr a) = some i →
      (cells.get? i).isSome = true := by
    intro a i hi
    have hlt : i < cells.length := by
      rw [hlen2]
      exact findIdx?_lt_length hi
    rw [List.get?_eq_getElem?, List.getElem?_eq_getElem hlt]
    rfl
  have hphase1 : A.findSome? (fun k => jlookup (lowerKeys (hdr.zip cells)) (lowTrim k)) =
      (A.findSome?
        (fun c => (hdr.map lowerStr).findIdx? (fun h => h = lowerStr c))).bind
        (fun i => cells.get? i) := by
    rw [findSome?_congr (g := fun a =>
      ((hdr.map lowerStr).findIdx? (fun h => h = lowerStr a)).bind
        (fun i => cells.get? i)) ?_]
    · exact findSome?_bind_total _ _ htot A
    · intro a ha
      rw [hkeys, jlookup, hA a ha,
        find?_zip_eq (fun h => decide (h = lowerStr a)) hlen2]
  have hphase2 :
      ((lowerKeys (hdr.zip cells)).find?
        (fun kv => A.any (fun c => containsSub kv.1 (lowTrim c)))).map
          (fun kv => kv.2) =
      ((hdr.map lowerStr).findIdx?
        (fun key => A.any (fun c => containsSub key (lowTrim c)))).bind
        (fun i => cells.get? i) := by
    rw [hkeys,
      find?_zip_eq (fun key => A.any (fun c => containsSub key (lowTrim c))) hlen2]
  have hpred : (fun key => A.any (fun c => containsSub key (lowTrim c))) =
      (fun key => A.any (fun c => containsSub key (lowerStr c))) := by
    funext key
    exact any_congr (fun c hc => by rw [hA c hc])
  rw [pick, hphase1, findCol_eq]
  cases hf : A.findSome?
      (fun c => (hdr.map lowerStr).findIdx? (fun h => h = lowerStr c)) with
  | some i =>
    obtain ⟨a, _, hfa⟩ := List.exists_of_findSome?_eq_some hf
    obtain ⟨v, hv⟩ := Option.isSome_iff_exists.1 (htot a i hfa)
    show (match (some i).bind (fun i => cells.get? i) with
      | some v => some v
      | none => ((lowerKeys (hdr.zip cells)).find?
          (fun kv => A.any (fun c => containsSub kv.1 (lowTrim c)))).map
            (fun kv => kv.2)) = jAt cells
        (match (some i).orElse
          (fun _ => (hdr.map lowerStr).findIdx?
            (fun key => A.any (fun c => containsSub key (lowerStr c)))) with
        | some i => Int.ofNat i
        | none => -1)
    rw [Option.some_bind, hv]
    show some v = jAt cells (Int.ofNat i)
    rw [jAt]
    split_ifs with hic
    · exact hv.symm
    · exact absurd (Int.ofNat_nonneg i) hic
  | none =>
    show (match (none : Option ℕ).bind (fun i => cells.get? i) with
      | some v => some v
      | none => ((lowerKeys (hdr.zip cells)).find?
          (fun kv => A.any (fun c => containsSub kv.1 (lowTrim c)))).map
            (fun kv => kv.2)) = jAt cells
        (match (none : Option ℕ).orElse
          (fun _ => (hdr.map lowerStr).findIdx?
            (fun key => A.any (fun c => containsSub key (lowerStr c)))) with
        | some i => Int.ofNat i
        | none => -1)
    rw [Option.none_bind]
    show ((lowerKeys (hdr.zip cells)).find?
        (fun kv => A.any (fun c => containsSub kv.1 (lowTrim c)))).map
          (fun kv => kv.2) = jAt cells
        (match (hdr.map lowerStr).findIdx?
          (fun key => A.any (fun c => containsSub key (lowerStr c))) with
        | some i => Int.ofNat i
        | none => -1)
    rw [hphase2, hpred]
    cases hg : (hdr.map lowerStr).findIdx?
        (fun key => A.any (fun c => containsSub key (lowerStr c))) with
    | some j =>
      rw [Option.some_bind]
      show cells.get? j = jAt cells (Int.ofNat j)
      rw [jAt]
      split_ifs with hic
      · rfl
      · exact absurd (Int.ofNat_nonneg j) hic
    | none =>
      rw [Option.none_bind]
      show none = jAt cells (-1)
      rw [jAt, if_neg (by norm_num)]

theorem map_filter_eq_filterMap {α β : Type} (f : α → β) (p : β → Bool) :
    ∀ l : List α, (l.map f).filter p =
      l.filterMap (fun a => if p (f a) then some (f a) else none) := by
  intro l
  induction l with
  | nil => rfl
  | cons a l ih =>
    rw [List.map_cons, List.filter_cons, List.filterMap_cons]
    by_cases hp : p (f a)
    · rw [if_pos hp, hp, ih]
      rfl
    · rw [if_neg hp]
      rw [show p (f a) = false from by simpa using hp, ih]
      rfl

theorem filterMap_filter {α β : Type} (h : α → Option β) (q : β → Bool) :
    ∀ l : List α, (l.filterMap h).filter q =
      l.filterMap (fun a => (h a).bind (fun b => if q b then some b else none)) := by
  intro l
  induction l with
  | nil => rfl
  | cons a l ih =>
    rw [List.filterMap_cons, List.filterMap_cons]
    cases hh : h a with
    | none => rw [Option.none_bind, ih]
    | some b =>
      rw [Option.some_bind, List.filter_cons]
      by_cases hq : q b
      · rw [if_pos hq, hq, ih]
        rfl
      · rw [if_neg hq, show q b = false from by simpa using hq, ih]
        rfl

/-- The total contribution of one row in the binary supplier loop. -/
def supplierTotalOf (iVendor iItem iTotal iQty : Int) (r : List JVal) :
    Option SupplierTotal :=
  match supplierClassify iVendor iItem iTotal iQty r with
  | .total t => some t
  | _ => none

/-- The line contribution of one row in the binary supplier loop. -/
def supplierLineOf (iVendor iItem iTotal iQty : Int) (r : List JVal) :
    Option SupplierLineItem :=
  match supplierClassify iVendor iItem iTotal iQty r with
  | .line l => some l
  | _ => none

theorem supplierLoop_eq (iV iI iT iQ : Int) :
    ∀ body : List (List JVal),
      supplierLoop iV iI iT iQ body =
        (body.filterMap (supplierTotalOf iV iI iT iQ),
          body.filterMap (supplierLineOf iV iI iT iQ)) := by
  intro body
  induction body with
  | nil => rfl
  | cons r rest ih =>
    rw [supplierLoop, ih, List.filterMap_cons, List.filterMap_cons,
      supplierTotalOf, supplierLineOf]
    cases supplierClassify iV iI iT iQ r <;> rfl

theorem supplierTotalOf_eq (iV iI iT iQ : Int) (r : List JVal) :
    supplierTotalOf iV iI iT iQ r =
      (if isTotalRow (jStrAt r iV) ∧ 0 < jNumAt r iT then
        (if 0 < jNumAt r iT ∧ ¬ isInternalSupplier (stripTotal (jStrAt r iV)) then
          some { supplier := stripTotal (jStrAt r iV), totalCost := jNumAt r iT,
                 totalQuantity := jGuard (jNumUnguarded (jAt r iQ)) }
        else none)
      else none) := by
  rw [supplierTotalOf, supplierClassify]
  by_cases h1 : isTotalRow (jStrAt r iV) ∧ 0 < jNumAt r iT
  · rw [if_pos h1, if_pos h1]
    by_cases h2 : 0 < jNumAt r iT ∧ ¬ isInternalSupplier (stripTotal (jStrAt r iV))
    · rw [if_pos h2, if_pos h2]
    · rw [if_neg h2, if_neg h2]
  · rw [if_neg h1, if_neg h1]
    by_cases h3 : jStrAt r iV ≠ "" ∧ jStrAt r iI ≠ "" ∧ 0 < jNumAt r iT
    · rw [if_pos h3]
    · rw [if_neg h3]

theorem supplierLineOf_eq (iV iI iT iQ : Int) (r : List JVal) :
    supplierLineOf iV iI iT iQ r =
      (if isTotalRow (jStrAt r iV) ∧ 0 < jNumAt r iT then none
      else if jStrAt r iV ≠ "" ∧ jStrAt r iI ≠ "" ∧ 0 < jNumAt r iT then
        some { supplier := jStrAt r iV, item := jStrAt r iI, totalCost := jNumAt r iT,
               quantity := JNumber.num (jGuard (jNumUnguarded (jAt r iQ))), date := none }
      else none) := by
  rw [supplierLineOf, supplierClassify]
  by_cases h1 : isTotalRow (jStrAt r iV) ∧ 0 < jNumAt r iT
  · rw [if_pos h1, if_pos h1]
    by_cases h2 : 0 < jNumAt r iT ∧ ¬ isInternalSupplier (stripTotal (jStrAt r iV))
    · rw [if_pos h2]
    · rw [if_neg h2]
  · rw [if_neg h1, if_neg h1]
    by_cases h3 : jStrAt r iV ≠ "" ∧ jStrAt r iI ≠ "" ∧ 0 < jNumAt r iT
    · rw [if_pos h3, if_pos h3]
    · rw [if_neg h3, if_neg h3]

theorem supplierLineOf_date_none (iV iI iT iQ : Int) (r : List JVal)
    {li : SupplierLineItem} (h : supplierLineOf iV iI iT iQ r = some li) :
    li.date = none := by
  rw [supplierLineOf_eq] at h
  split_ifs at h
  injection h with he
  rw [← he]

theorem supplierLineOf_quantity_num (iV iI iT iQ : Int) (r : List JVal)
    {li : SupplierLineItem} (h : supplierLineOf iV iI iT iQ r = some li) :
    ∃ q : ℚ, li.quantity = JNumber.num q := by
  rw [supplierLineOf_eq] at h
  split_ifs at h
  injection h with he
  exact ⟨jGuard (jNumUnguarded (jAt r iQ)), by rw [← he]⟩

/-- C3 (amended).  On inputs carrying the same field values — a common header
list (trimmed, with distinct lower-cased names) and a body of equal-length
cell rows, with the header row correctly resolved at index 0 — the
delimited-text and binary-spreadsheet supplier paths produce the same
SupplierTotal set, and the same SupplierLineItem set up to two differences:
only the delimited path carries date (the binary path's line items have
none), and the delimited path stores the quantity unguarded (possibly NaN)
where the binary path stores the NaN-guarded value (`qty || 0`, a plain
number). -/
theorem c3_supplier_paths (hdr : List String) (body : List (List JVal))
    (h1 : (hdr.map lowerStr).Nodup)
    (h2 : ∀ h ∈ hdr, trimStr h = h)
    (h3 : ∀ h ∈ hdr, lowTrim h = lowerStr h)
    (h4 : ∀ r ∈ body, r.length = hdr.length)
    (h5 : findHeaderRow ((hdr.map JVal.str) :: body)
        ["vendor", "supplier", "item", "quantity", "amount", "total"] = 0) :
    (handleSupplierCSV (body.map (fun c => hdr.zip c))).suppliers =
      (handleSupplierX ((hdr.map JVal.str) :: body)).suppliers ∧
    (handleSupplierCSV (body.map (fun c => hdr.zip c))).lineItems.map
        (fun li => { li with date := none,
                             quantity := JNumber.num (jGuard li.quantity) }) =
      (handleSupplierX ((hdr.map JVal.str) :: body)).lineItems ∧
    (∀ li ∈ (handleSupplierX ((hdr.map JVal.str) :: body)).lineItems,
      li.date = none ∧ ∃ q : ℚ, li.quantity = JNumber.num q) := by
  have hhdr : (hdr.map JVal.str).map (fun h => trimStr (jStr (some h))) = hdr := by
    rw [List.map_map]
    have hcongr : ∀ h ∈ hdr, (trimStr (jStr (some (JVal.str h)))) = h := by
      intro h hh
      rw [jStr_str]
      exact h2 h hh
    calc hdr.map (fun h => trimStr (jStr (some (JVal.str h))))
        = hdr.map id := List.map_congr_left hcongr
      _ = hdr := List.map_id hdr
  have hX : handleSupplierX ((hdr.map JVal.str) :: body) =
      { suppliers := sortByDesc (fun s => s.totalCost)
          (body.filterMap (supplierTotalOf
            (findCol hdr ["Vendor", "Supplier", "Name"])
            (findCol hdr ["Item", "Item Name", "Product"])
            (findCol hdr ["TotalCost", "Amount", "Total", "Net Amount"])
            (findCol hdr ["Quantity", "Qty"])))
        lineItems := body.filterMap (supplierLineOf
            (findCol hdr ["Vendor", "Supplier", "Name"])
            (findCol hdr ["Item", "Item Name", "Product"])
            (findCol hdr ["TotalCost", "Amount", "Total", "Net Amount"])
            (findCol hdr ["Quantity", "Qty"])) } := by
    rw [handleSupplierX, h5, List.drop_zero]
    rw [show ((hdr.map JVal.str) :: body).headD [] = hdr.map JVal.str from rfl]
    rw [hhdr]
    rw [show ((hdr.map JVal.str) :: body).tail = body from rfl]
    rw [supplierLoop_eq]
  have hpickV : ∀ r ∈ body, pick (hdr.zip r) ["Vendor", "Supplier", "Name"] =
      jAt r (findCol hdr ["Vendor", "Supplier", "Name"]) :=
    fun r hr => pick_zip_eq hdr r _ h1 h3 (by decide) (h4 r hr)
  have hpickI : ∀ r ∈ body, pick (hdr.zip r) ["Item", "Item Name", "Product"] =
      jAt r (findCol hdr ["Item", "Item Name", "Product"]) :=
    fun r hr => pick_zip_eq hdr r _ h1 h3 (by decide) (h4 r hr)
  have hpickT : ∀ r ∈ body, pick (hdr.zip r) ["TotalCost", "Amount", "Total", "Net Amount"] =
      jAt r (findCol hdr ["TotalCost", "Amount", "Total", "Net Amount"]) :=
    fun r hr => pick_zip_eq hdr r _ h1 h3 (by decide) (h4 r hr)
  have hpickQ : ∀ r ∈ body, pick (hdr.zip r) ["Quantity", "Qty"] =
      jAt r (findCol hdr ["Quantity", "Qty"]) :=
    fun r hr => pick_zip_eq hdr r _ h1 h3 (by decide) (h4 r hr)
  refine ⟨?_, ?_, ?_⟩
  · rw [handleSupplierCSV, hX]
    show sortByDesc (fun s : SupplierTotal => s.totalCost) _ =
      sortByDesc (fun s : SupplierTotal => s.totalCost) _
    congr 1
    rw [List.map_map, map_filter_eq_filterMap, map_filter_eq_filterMap,
      List.filterMap_filterMap]
    apply List.filterMap_congr
    intro r hr
    simp only [Function.comp_apply, decide_eq_true_eq]
    rw [hpickV r hr, hpickT r hr, hpickQ r hr, supplierTotalOf_eq]
    simp only [jStrAt, jNumAt]
    by_cases hc1 : isTotalRow (jStr (jAt r (findCol hdr ["Vendor", "Supplier", "Name"]))) =
        true ∧ 0 < jNum (jAt r (findCol hdr ["TotalCost", "Amount", "Total", "Net Amount"]))
    · rw [if_pos hc1, Option.some_bind, if_pos hc1]
    · rw [if_neg hc1, Option.none_bind, if_neg hc1]
  · rw [handleSupplierCSV, hX]
    show List.map _ (List.filter _ (List.map _ (body.map (fun c => hdr.zip c)))) =
      List.filterMap _ body
    rw [List.map_map, map_filter_eq_filterMap, List.map_filterMap]
    apply List.filterMap_congr
    intro r hr
    simp only [Function.comp_apply, decide_eq_true_eq]
    rw [hpickV r hr, hpickI r hr, hpickT r hr, hpickQ r hr, supplierLineOf_eq]
    simp only [jStrAt, jNumAt]
    by_cases hA : jStr (jAt r (findCol hdr ["Vendor", "Supplier", "Name"])) ≠ "" ∧
        ¬ isTotalRow (jStr (jAt r (findCol hdr ["Vendor", "Supplier", "Name"]))) = true ∧
        jStr (jAt r (findCol hdr ["Item", "Item Name", "Product"])) ≠ "" ∧
        0 < jNum (jAt r (findCol hdr ["TotalCost", "Amount", "Total", "Net Amount"]))
    · rw [if_pos hA, if_neg (by
        rintro ⟨ht, _⟩
        exact hA.2.1 ht), if_pos ⟨hA.1, hA.2.2.1, hA.2.2.2⟩]
      rw [Option.map_some']
    · rw [if_neg hA, Option.map_none']
      by_cases hB : isTotalRow (jStr (jAt r (findCol hdr ["Vendor", "Supplier", "Name"]))) =
          true ∧ 0 < jNum (jAt r (findCol hdr ["TotalCost", "Amount", "Total", "Net Amount"]))
      · rw [if_pos hB]
      · rw [if_neg hB, if_neg (by
          rintro ⟨hv, hi, ht⟩
          exact hA ⟨hv, fun htot => hB ⟨htot, ht⟩, hi, ht⟩)]
  · rw [hX]
    intro li hli
    rw [List.mem_filterMap] at hli
    obtain ⟨r, _, hsome⟩ := hli
    exact ⟨supplierLineOf_date_none _ _ _ _ r hsome,
      supplierLineOf_quantity_num _ _ _ _ r hsome⟩

/-- Header of the supplier counterexample: all five semantic columns. -/
def exSupHdr : List String := ["Vendor", "Item", "TotalCost", "Quantity", "Date"]

/-- One supplier detail row with a numeric quantity and a date value. -/
def exSupCells : List JVal :=
  [JVal.str "Acme", JVal.str "W1", JVal.num 10, JVal.num 2, JVal.str "2024-01-01"]

/-- One supplier detail row whose Quantity cell is a truthy non-numeric
string. -/
def exSupCells2 : List JVal :=
  [JVal.str "Acme", JVal.str "W1", JVal.num 10, JVal.str "2 EA", JVal.str "2024-01-01"]

/-- C3 counterexample: on the same field values the two paths differ — the
delimited path's line item carries the Date value where the binary path's
carries none, and on a truthy non-numeric Quantity string the delimited path
stores NaN where the binary path stores 0 — so the result sets are not
identical. -/
theorem c3_counterexample_path_divergence :
    handleSupplierCSV [exSupHdr.zip exSupCells] ≠
      handleSupplierX [exSupHdr.map JVal.str, exSupCells] ∧
    (handleSupplierCSV [exSupHdr.zip exSupCells]).lineItems.map (fun li => li.date) =
      [some (JVal.str "2024-01-01")] ∧
    (handleSupplierX [exSupHdr.map JVal.str, exSupCells]).lineItems.map
        (fun li => li.date) = [none] ∧
    (handleSupplierCSV [exSupHdr.zip exSupCells2]).lineItems.map
        (fun li => li.quantity) = [JNumber.nan] ∧
    (handleSupplierX [exSupHdr.map JVal.str, exSupCells2]).lineItems.map
        (fun li => li.quantity) = [JNumber.num 0] := by
  refine ⟨by decide, by decide, by decide, by decide, by decide⟩

/-- Witness for the amended C3 at the counterexample input: totals agree and
the line items agree once the date field is erased and the quantity is
NaN-guarded. -/
theorem c3_supplier_paths_witness :
    (handleSupplierCSV [exSupHdr.zip exSupCells]).suppliers =
      (handleSupplierX [exSupHdr.map JVal.str, exSupCells]).suppliers ∧
    (handleSupplierCSV [exSupHdr.zip exSupCells]).lineItems.map
        (fun li => { li with date := none,
                             quantity := JNumber.num (jGuard li.quantity) }) =
      (handleSupplierX [exSupHdr.map JVal.str, exSupCells]).lineItems := by
  have h := c3_supplier_paths exSupHdr [exSupCells] (by decide) (by decide) (by decide)
    (by decide) (by decide)
  exact ⟨h.1, h.2.1⟩

end NetSuiteBI
